import Mathlib

/-!
Verification of the worker-process supervision and event-protocol layer of
`apps/desktop/main.js` (Electron main process of whisper-dictation).

The JavaScript source is shallowly embedded:

* `Json` models the JSON-representable values exchanged on the wire.
  Numbers are modelled as arbitrary-precision integers (the application only
  ever transmits integer percentages and string/object arguments;
  floating-point literals are out of scope).
* `emit` models the `JSON.stringify` builtin on such values (insertion-order
  fields, `\"`/`\\`/control-character escaping, no added whitespace), and
  `parseVal`/`parseJsonTop` model the `JSON.parse` builtin (whitespace
  skipping, strings with escapes, integers, arrays, objects; a line that
  `JSON.parse` would reject makes `parseJsonTop` return `none`).
* `St` models the mutable module-level state of `main.js` (`running`, `py`,
  `registeredShortcut`, `lastProgress`, `store`) together with the handler
  closure currently bound to the registered shortcut and the multiset of
  accelerators this app currently holds registered with the OS.
* Each stream / IPC handler of `main.js` becomes a pure function from state
  and input to new state, a trace of OS calls (`OsCall`) and a list of
  events sent to the renderer (events are the raw `Json` values passed to
  `webContents.send`).
-/

/-- JSON-representable values (model of the values produced by `JSON.parse`
and consumed by `JSON.stringify`; numbers restricted to integers). -/
inductive Json where
  | null : Json
  | bool (b : Bool) : Json
  | num (n : Int) : Json
  | str (s : String) : Json
  | arr (elems : List Json) : Json
  | obj (fields : List (String × Json)) : Json

/-- The double-quote character, written via its code point. -/
@[reducible] def quoteChar : Char := Char.ofNat 34

/-- The backslash character, written via its code point. -/
@[reducible] def backslashChar : Char := Char.ofNat 92

/-- The opening curly brace character, written via its code point. -/
@[reducible] def lbrace : Char := Char.ofNat 123

/-- The closing curly brace character, written via its code point. -/
@[reducible] def rbrace : Char := Char.ofNat 125

/-- Decimal digits of a natural number, most significant first
(model of the decimal rendering JavaScript uses for integral numbers). -/
def natToDigits (n : Nat) : List Char :=
  if _h : n < 10 then [Nat.digitChar n]
  else natToDigits (n / 10) ++ [Nat.digitChar (n % 10)]
decreasing_by exact Nat.div_lt_self (by omega) (by omega)

/-- Decimal rendering of an integer, as `JSON.stringify` prints it. -/
def emitInt (n : Int) : List Char :=
  if n < 0 then '-' :: natToDigits n.natAbs else natToDigits n.toNat

/-- Escaping of a single character inside a JSON string literal, exactly as
`JSON.stringify` performs it: quote and backslash get a backslash escape,
the control characters 8, 9, 10, 12, 13 get their short escapes, the other
control characters get a `\u00xx` escape, everything else is verbatim. -/
def escChar (c : Char) : List Char :=
  if c = quoteChar then [backslashChar, quoteChar]
  else if c = backslashChar then [backslashChar, backslashChar]
  else if c = Char.ofNat 8 then [backslashChar, 'b']
  else if c = '\t' then [backslashChar, 't']
  else if c = '\n' then [backslashChar, 'n']
  else if c = Char.ofNat 12 then [backslashChar, 'f']
  else if c = '\r' then [backslashChar, 'r']
  else if c.toNat < 32 then
    [backslashChar, 'u', '0', '0', Nat.digitChar (c.toNat / 16), Nat.digitChar (c.toNat % 16)]
  else [c]

/-- Escaped body of a JSON string literal. -/
def escBody (l : List Char) : List Char := (l.map escChar).flatten

/-- A complete JSON string literal, quotes included. -/
def escString (s : String) : List Char := quoteChar :: escBody s.data ++ [quoteChar]

mutual

/-- Model of `JSON.stringify` producing a character list: no whitespace is
inserted, object fields keep insertion order. -/
def emit : Json → List Char
  | Json.null => ['n', 'u', 'l', 'l']
  | Json.bool true => ['t', 'r', 'u', 'e']
  | Json.bool false => ['f', 'a', 'l', 's', 'e']
  | Json.num n => emitInt n
  | Json.str s => escString s
  | Json.arr es => '[' :: emitElems es ++ [']']
  | Json.obj ms => lbrace :: emitMembers ms ++ [rbrace]

/-- Comma-separated rendering of array elements. -/
def emitElems : List Json → List Char
  | [] => []
  | [v] => emit v
  | v :: vs => emit v ++ ',' :: emitElems vs

/-- Comma-separated rendering of object members (`"key":value`). -/
def emitMembers : List (String × Json) → List Char
  | [] => []
  | [(k, v)] => escString k ++ ':' :: emit v
  | (k, v) :: ms => escString k ++ ':' :: emit v ++ ',' :: emitMembers ms

end

/-- Model of `JSON.stringify` producing a `String`. -/
def jsonStringify (v : Json) : String := String.mk (emit v)

/-- Whitespace skipping of `JSON.parse` (space, tab, newline, carriage return). -/
def skipWs (cs : List Char) : List Char :=
  match cs with
  | c :: rest =>
    if c = ' ' || c = '\t' || c = '\n' || c = '\r' then skipWs rest else c :: rest
  | [] => []

/-- Value of one hexadecimal digit. -/
def hexVal (c : Char) : Option Nat :=
  if c.isDigit then some (c.toNat - 48)
  else if 'a' ≤ c ∧ c ≤ 'f' then some (c.toNat - 87)
  else if 'A' ≤ c ∧ c ≤ 'F' then some (c.toNat - 55)
  else none

/-- Meaning of a single-character JSON string escape. -/
def unescapeChar (e : Char) : Option Char :=
  if e = quoteChar then some quoteChar
  else if e = backslashChar then some backslashChar
  else if e = '/' then some '/'
  else if e = 'b' then some (Char.ofNat 8)
  else if e = 'f' then some (Char.ofNat 12)
  else if e = 'n' then some '\n'
  else if e = 'r' then some '\r'
  else if e = 't' then some '\t'
  else none

/-- Parser for the body of a JSON string literal (after the opening quote);
returns the decoded characters and the input following the closing quote.
Raw control characters are rejected, as `JSON.parse` rejects them. -/
def parseStrBody (cs : List Char) : Option (List Char × List Char) :=
  match cs with
  | [] => none
  | c :: rest =>
    if c = quoteChar then some ([], rest)
    else if c = backslashChar then
      match rest with
      | [] => none
      | e :: rest1 =>
        if e = 'u' then
          match rest1 with
          | a :: b :: c2 :: d :: rest2 =>
            match hexVal a, hexVal b, hexVal c2, hexVal d with
            | some ha, some hb, some hc, some hd =>
              match parseStrBody rest2 with
              | some (s, r) => some (Char.ofNat (((ha * 16 + hb) * 16 + hc) * 16 + hd) :: s, r)
              | none => none
            | _, _, _, _ => none
          | _ => none
        else
          match unescapeChar e with
          | some u =>
            match parseStrBody rest1 with
            | some (s, r) => some (u :: s, r)
            | none => none
          | none => none
    else if 32 ≤ c.toNat then
      match parseStrBody rest with
      | some (s, r) => some (c :: s, r)
      | none => none
    else none

/-- Greedy decimal-digit accumulation of `JSON.parse` number reading. -/
def parseDigits (cs : List Char) (acc : Nat) : Nat × List Char :=
  match cs with
  | c :: rest =>
    if c.isDigit then parseDigits rest (acc * 10 + (c.toNat - 48)) else (acc, c :: rest)
  | [] => (acc, [])

/-- Parser for the digits of a JSON number (leading-zero rule of JSON:
a number starting with `0` is exactly `0`). -/
def parseNumTail (cs : List Char) : Option (Nat × List Char) :=
  match cs with
  | c :: rest =>
    if c = '0' then some (0, rest)
    else if c.isDigit then some (parseDigits rest (c.toNat - 48))
    else none
  | [] => none

mutual

/-- Fuel-indexed model of `JSON.parse` for a single value; returns the value
and the unconsumed input. -/
def parseVal : Nat → List Char → Option (Json × List Char)
  | 0, _ => none
  | fuel + 1, cs =>
    match skipWs cs with
    | [] => none
    | c :: rest =>
      if c = 'n' then
        match rest with
        | 'u' :: 'l' :: 'l' :: r => some (Json.null, r)
        | _ => none
      else if c = 't' then
        match rest with
        | 'r' :: 'u' :: 'e' :: r => some (Json.bool true, r)
        | _ => none
      else if c = 'f' then
        match rest with
        | 'a' :: 'l' :: 's' :: 'e' :: r => some (Json.bool false, r)
        | _ => none
      else if c = quoteChar then
        match parseStrBody rest with
        | some (s, r) => some (Json.str (String.mk s), r)
        | none => none
      else if c = '-' then
        match parseNumTail rest with
        | some (n, r) => some (Json.num (-(n : Int)), r)
        | none => none
      else if c.isDigit then
        match parseNumTail (c :: rest) with
        | some (n, r) => some (Json.num (n : Int), r)
        | none => none
      else if c = '[' then
        match skipWs rest with
        | c2 :: r2 =>
          if c2 = ']' then some (Json.arr [], r2)
          else
            match parseElems fuel (c2 :: r2) with
            | some (es, r3) => some (Json.arr es, r3)
            | none => none
        | [] => none
      else if c = lbrace then
        match skipWs rest with
        | c2 :: r2 =>
          if c2 = rbrace then some (Json.obj [], r2)
          else
            match parseMembers fuel (c2 :: r2) with
            | some (ms, r3) => some (Json.obj ms, r3)
            | none => none
        | [] => none
      else none

/-- Fuel-indexed parser for a nonempty `,`-separated element list, consuming
the closing `]`. -/
def parseElems : Nat → List Char → Option (List Json × List Char)
  | 0, _ => none
  | fuel + 1, cs =>
    match parseVal fuel cs with
    | some (v, r) =>
      match skipWs r with
      | c :: r2 =>
        if c = ',' then
          match parseElems fuel r2 with
          | some (es, r3) => some (v :: es, r3)
          | none => none
        else if c = ']' then some ([v], r2)
        else none
      | [] => none
    | none => none

/-- Fuel-indexed parser for a nonempty object member list, consuming the
closing brace. -/
def parseMembers : Nat → List Char → Option (List (String × Json) × List Char)
  | 0, _ => none
  | fuel + 1, cs =>
    match skipWs cs with
    | c :: rest =>
      if c = quoteChar then
        match parseStrBody rest with
        | some (k, r1) =>
          match skipWs r1 with
          | ':' :: r2 =>
            match parseVal fuel r2 with
            | some (v, r3) =>
              match skipWs r3 with
              | c2 :: r4 =>
                if c2 = ',' then
                  match parseMembers fuel r4 with
                  | some (ms, r5) => some ((String.mk k, v) :: ms, r5)
                  | none => none
                else if c2 = rbrace then some ([(String.mk k, v)], r4)
                else none
              | [] => none
            | none => none
          | _ => none
        | none => none
      else none
    | [] => none

end

/-- Model of `JSON.parse` applied to a whole line: one value, possibly
surrounded by whitespace, nothing else; `none` models a thrown `SyntaxError`. -/
def parseJsonTop (line : String) : Option Json :=
  match parseVal (line.length + 1) line.data with
  | some (v, rest) => if skipWs rest = [] then some v else none
  | none => none

/-! ## State and collaborators of `main.js` -/

/-- Model of the `electron-store` contents for the three keys the app uses.
`hotkey` is always set from an accelerator string; `model` and `language`
are set from renderer-supplied JSON values. -/
structure Store where
  model : Option Json
  language : Option Json
  hotkey : Option String

/-- The handler closure bound to the registered global shortcut: either the
closure created by the `hotkey:set` IPC handler (which captures the
`language` argument), or the closure created at startup from saved
preferences (which reads `store.get('language')` on each invocation). -/
inductive Binding where
  | closureLang (language : String) : Binding
  | storeLang : Binding

/-- Mutable module-level state of `main.js`: `running`, whether `py` holds a
process handle, `registeredShortcut`, `lastProgress`, the store (or `null`
if `electron-store` failed to load), plus the bound handler closure and the
list of accelerators currently registered with the OS by this app. -/
structure St where
  running : Bool
  py : Bool
  registeredShortcut : Option String
  lastProgress : Option Nat
  store : Option Store
  binding : Option Binding
  osRegs : List String

/-- Calls made to the operating system / Electron collaborators. -/
inductive OsCall where
  | spawnProc (path : String) : OsCall
  | stdinWrite (payload : String) : OsCall
  | regShortcut (accelerator : String) : OsCall
  | unregShortcut (accelerator : String) : OsCall

/-- Outcome of a `globalShortcut.register` call: succeeded, returned `false`,
or threw an exception. -/
inductive RegResult where
  | ok : RegResult
  | failed : RegResult
  | threw : RegResult

/-! ## Events sent to the renderer -/

/-- The fallback event for a stdout line that is not valid JSON. -/
def logEvent (line : String) : Json :=
  Json.obj [("event", Json.str "log"), ("data", Json.str line)]

/-- The event wrapping raw stderr text. -/
def stderrEvent (text : String) : Json :=
  Json.obj [("event", Json.str "stderr"), ("data", Json.str text)]

/-- The progress event scraped from stderr text. -/
def progressEvent (pct : Nat) (msg : String) : Json :=
  Json.obj [("event", Json.str "progress"), ("percent", Json.num pct),
            ("message", Json.str msg)]

/-- The event emitted when the worker process closes. -/
def exitEvent (code : Option Int) (signal : Option String) : Json :=
  Json.obj [("event", Json.str "exit"),
            ("code", match code with | some n => Json.num n | none => Json.null),
            ("signal", match signal with | some s => Json.str s | none => Json.null)]

/-! ## JavaScript value semantics helpers -/

/-- Last-binding-wins field lookup, as a JavaScript object built by
`JSON.parse` resolves duplicate keys. -/
def jsLookupLast (kvs : List (String × Json)) (key : String) : Option Json :=
  match kvs with
  | [] => none
  | (k, v) :: rest =>
    match jsLookupLast rest key with
    | some w => some w
    | none => if k = key then some v else none

/-- JavaScript property access `v.key`: `none` models a thrown `TypeError`
(access on `null`), `some none` models `undefined`, `some (some w)` a
present field. -/
def propAccess (v : Json) (key : String) : Option (Option Json) :=
  match v with
  | Json.null => none
  | Json.obj kvs => some (jsLookupLast kvs key)
  | _ => some none

/-- Strict equality of a property-access result against a string literal. -/
def isEvtStr (f : Option Json) (s : String) : Bool :=
  match f with
  | some (Json.str t) => t = s
  | _ => false

/-- JavaScript truthiness of a JSON value. -/
def jsTruthy (v : Json) : Bool :=
  match v with
  | Json.null => false
  | Json.bool b => b
  | Json.num n => n ≠ 0
  | Json.str s => s ≠ ""
  | Json.arr _ => true
  | Json.obj _ => true

/-! ## Stdout handler (`py.stdout.on('data')`, lines 56-68) -/

/-- Splitting a chunk on the separator `\r?\n`, as
`data.toString().split(/\r?\n/)` does. -/
def splitLinesCore : List Char → List Char → List String
  | [], acc => [String.mk acc.reverse]
  | '\r' :: '\n' :: rest, acc => String.mk acc.reverse :: splitLinesCore rest []
  | '\n' :: rest, acc => String.mk acc.reverse :: splitLinesCore rest []
  | c :: rest, acc => splitLinesCore rest (c :: acc)

/-- All lines of a chunk. -/
def splitLines (s : String) : List String := splitLinesCore s.data []

/-- The lines the stdout handler iterates over:
`data.toString().split(/\r?\n/).filter(Boolean)` (empty strings are falsy
and dropped). -/
def stdoutLines (chunk : String) : List String :=
  (splitLines chunk).filter (fun l => l ≠ "")

/-- Handling of one stdout line (the body of the `for` loop): try
`JSON.parse`; on success update `running` from the `event` field and forward
the parsed value; on any exception (parse failure, or property access on a
parsed `null`) forward a `log` event wrapping the raw line. -/
def onStdoutLine (st : St) (line : String) : St × Json :=
  match parseJsonTop line with
  | none => (st, logEvent line)
  | some evt =>
    match propAccess evt "event" with
    | none => (st, logEvent line)
    | some f =>
      let r1 := if isEvtStr f "started" then true else st.running
      let r2 := if isEvtStr f "stopped" then false else r1
      ({st with running := r2}, evt)

/-- Folding the stdout-line handler over a list of lines, collecting the
forwarded events in order. -/
def onStdoutLines (st : St) : List String → St × List Json
  | [] => (st, [])
  | l :: ls =>
    ((onStdoutLines (onStdoutLine st l).1 ls).1,
     (onStdoutLine st l).2 :: (onStdoutLines (onStdoutLine st l).1 ls).2)

/-- The complete stdout `data` handler. -/
def onStdoutData (st : St) (chunk : String) : St × List Json :=
  onStdoutLines st (stdoutLines chunk)

/-! ## Stderr handler and percent scraping (lines 70-81) -/

/-- JavaScript word characters (`\w` of the regex engine). -/
def isWordChar (c : Char) : Bool := c.isAlpha || c.isDigit || c = '_'

/-- Word-character test through an optional character (`none` is outside the
input). -/
def optWord (o : Option Char) : Bool :=
  match o with
  | some c => isWordChar c
  | none => false

/-- The `\b` word-boundary test between two optional characters. -/
def wordBoundary (prev next : Option Char) : Bool := optWord prev != optWord next

/-- Matching of `([0-9]\x7b1,2\x7d|100)%` at the head of the input, with the
backtracking order of the regex engine (two digits, then one digit, then the
literal `100`); returns the captured digit characters. -/
def matchPctAt (cs : List Char) : Option (List Char) :=
  match cs with
  | c1 :: c2 :: c3 :: rest =>
    if c1.isDigit && c2.isDigit && c3 = '%' then some [c1, c2]
    else if c1.isDigit && c2 = '%' then some [c1]
    else if c1 = '1' && c2 = '0' && c3 = '0' && rest.head? = some '%' then some ['1', '0', '0']
    else none
  | [c1, c2] => if c1.isDigit && c2 = '%' then some [c1] else none
  | _ => none

/-- Attempt of the full pattern `(\b|\()([0-9]\x7b1,2\x7d|100)%` at one start
position: the `\b` alternative is tried before the `\(` alternative. -/
def posOk (prev : Option Char) (cs : List Char) : Option (List Char) :=
  match (if wordBoundary prev cs.head? then matchPctAt cs else none) with
  | some ds => some ds
  | none =>
    match cs with
    | c :: rest => if c = '(' then matchPctAt rest else none
    | [] => none

/-- Left-to-right scan of `text.match(/(\b|\()([0-9]\x7b1,2\x7d|100)%/)`:
first position with a match wins; returns the second capture group. -/
def scanPct (prev : Option Char) : List Char → Option (List Char)
  | [] => posOk prev []
  | c :: rest =>
    match posOk prev (c :: rest) with
    | some ds => some ds
    | none => scanPct (some c) rest

/-- Decimal value of a digit string, as `Number(m[2])` computes it. -/
def digitsVal (ds : List Char) : Nat :=
  ds.foldl (fun a c => a * 10 + (c.toNat - 48)) 0

/-- The complete stderr `data` handler: scrape a percentage, else forward the
chunk as a `stderr` event. -/
def onStderrData (st : St) (chunk : String) : St × Json :=
  match scanPct none chunk.data with
  | some ds =>
    ({st with lastProgress := some (digitsVal ds)},
     progressEvent (digitsVal ds) chunk.trim)
  | none => (st, stderrEvent chunk)

/-! ## Process lifecycle handlers -/

/-- The `py.on('close')` handler (lines 83-85): it forwards an `exit` event
carrying the code and signal. -/
def onClose (st : St) (code : Option Int) (signal : Option String) : St × List Json :=
  (st, [exitEvent code signal])

/-- The `py.on('error')` handler (lines 51-53). -/
def onSpawnError (st : St) (msg : String) : St × List Json :=
  (st, [stderrEvent ("Failed to spawn python: " ++ msg)])

/-- The diagnostic message sent when the forced interpreter is absent. -/
def missingInterpreterMsg (forcedPy projectRoot : String) : String :=
  "Required interpreter missing: " ++ forcedPy ++
  ". Create it and install deps (python3 -m venv .venv && source .venv/bin/activate && pip install -r requirements.txt) at " ++
  projectRoot

/-- The `startPython` function (lines 32-86): pre-flight existence check of
the venv interpreter; on failure a diagnostic `stderr` event and no spawn;
on success a `log` event, the spawn call, and the handle is stored. -/
def startPython (st : St) (forcedPy projectRoot : String) (venvExists : Bool) :
    St × List OsCall × List Json :=
  if !venvExists then
    (st, [], [stderrEvent (missingInterpreterMsg forcedPy projectRoot)])
  else
    ({st with py := true}, [OsCall.spawnProc forcedPy],
     [logEvent ("Spawning Python: " ++ forcedPy ++ " (cwd=" ++ projectRoot ++ ")")])

/-! ## Command dispatch (`sendCmd`, lines 88-99) -/

/-- The wire payload built by `sendCmd`:
`JSON.stringify(\x7b cmd, args \x7d) + '\n'`. -/
def cmdRecord (cmd : String) (args : Json) : Json :=
  Json.obj [("cmd", Json.str cmd), ("args", args)]

/-- The newline-terminated encoded command record. -/
def encodeCmdPayload (cmd : String) (args : Json) : String :=
  jsonStringify (cmdRecord cmd args) ++ "\n"

/-- The `sendCmd` function: build the payload; if no process handle exists,
report and do not write; otherwise write, catching and reporting a write
failure (`wr` is the outcome of the `py.stdin.write` call). -/
def sendCmd (st : St) (wr : Except String Unit) (cmd : String) (args : Json) :
    St × List OsCall × List Json :=
  let payload := encodeCmdPayload cmd args
  if !st.py then
    (st, [], [stderrEvent "Python server is not running yet."])
  else
    match wr with
    | Except.ok _ => (st, [OsCall.stdinWrite payload], [])
    | Except.error msg =>
      (st, [OsCall.stdinWrite payload], [stderrEvent ("Failed to send command: " ++ msg)])

/-! ## Hotkey controller (lines 116-127, 150-184) -/

/-- Store update performed by `store.set('hotkey', accelerator)` guarded by
`if (store)`. -/
def storeSetHotkey (store : Option Store) (accelerator : String) : Option Store :=
  match store with
  | some s => some {s with hotkey := some accelerator}
  | none => none

/-- Store update performed by `store.delete('hotkey')` guarded by `if (store)`. -/
def storeDeleteHotkey (store : Option Store) : Option Store :=
  match store with
  | some s => some {s with hotkey := none}
  | none => none

/-- The `hotkey:set` IPC handler: unregister the previous accelerator if any,
then register the new one; on success record it (and persist it), on a
`false` return or a thrown exception record nothing and return `false`. -/
def hotkeySet (st : St) (accelerator language : String) (res : RegResult) :
    St × List OsCall × Bool :=
  let p :=
    match st.registeredShortcut with
    | some prev =>
      ({st with registeredShortcut := none, osRegs := st.osRegs.erase prev,
                binding := none},
       [OsCall.unregShortcut prev])
    | none => (st, ([] : List OsCall))
  match res with
  | RegResult.ok =>
    ({p.1 with registeredShortcut := some accelerator,
               osRegs := accelerator :: p.1.osRegs,
               binding := some (Binding.closureLang language),
               store := storeSetHotkey p.1.store accelerator},
     p.2 ++ [OsCall.regShortcut accelerator], true)
  | RegResult.failed => (p.1, p.2 ++ [OsCall.regShortcut accelerator], false)
  | RegResult.threw => (p.1, p.2 ++ [OsCall.regShortcut accelerator], false)

/-- The `hotkey:clear` IPC handler: unregister the current accelerator if
any, delete the stored preference, return `true`. -/
def hotkeyClear (st : St) : St × List OsCall × Bool :=
  let p :=
    match st.registeredShortcut with
    | some prev =>
      ({st with registeredShortcut := none, osRegs := st.osRegs.erase prev,
                binding := none},
       [OsCall.unregShortcut prev])
    | none => (st, ([] : List OsCall))
  ({p.1 with store := storeDeleteHotkey p.1.store}, p.2, true)

/-- JavaScript truthiness filter for an optional stored value. -/
def truthyJson (o : Option Json) : Option Json :=
  match o with
  | some v => if jsTruthy v then some v else none
  | none => none

/-- The saved-language read of the restored hotkey closure:
`store?.get('language') || 'en'`. -/
def orEnJson (o : Option Json) : Json :=
  match o with
  | some v => if jsTruthy v then v else Json.str "en"
  | none => Json.str "en"

/-- The `store?.get('language')` read. -/
def storeGetLanguage (store : Option Store) : Option Json :=
  match store with
  | some s => s.language
  | none => none

/-- The startup restore block inside `did-finish-load` (lines 116-127): if a
truthy saved hotkey and language exist, register the saved hotkey with the
store-reading closure; only on a `true` return is the binding recorded. -/
def restoreOnLoad (st : St) (savedHotkey : Option String) (res : RegResult) :
    St × List OsCall :=
  match st.store with
  | none => (st, [])
  | some s =>
    match savedHotkey, truthyJson s.language with
    | some hk, some _ =>
      if hk = "" then (st, [])
      else
        match res with
        | RegResult.ok =>
          ({st with registeredShortcut := some hk, osRegs := hk :: st.osRegs,
                    binding := some Binding.storeLang},
           [OsCall.regShortcut hk])
        | _ => (st, [OsCall.regShortcut hk])
    | _, _ => (st, [])

/-- A press of the registered global shortcut: run the bound closure, which
reads `running` at invocation time and dispatches `stop` or `start`. -/
def hotkeyPress (st : St) (wr : Except String Unit) : St × List OsCall × List Json :=
  match st.binding with
  | none => (st, [], [])
  | some (Binding.closureLang lang) =>
    if st.running then sendCmd st wr "stop" (Json.obj [])
    else sendCmd st wr "start" (Json.obj [("language", Json.str lang)])
  | some Binding.storeLang =>
    if st.running then sendCmd st wr "stop" (Json.obj [])
    else sendCmd st wr "start"
      (Json.obj [("language", orEnJson (storeGetLanguage st.store))])

/-! ## IPC command handlers (lines 139-148) -/

/-- The optional-chained renderer argument read `args?.key`, followed by the
truthiness guard of the `if`. -/
def truthyField (args : Json) (key : String) : Option Json :=
  match propAccess args key with
  | some (some v) => if jsTruthy v then some v else none
  | _ => none

/-- The `cmd:load` handler: persist a truthy `model_name`, then dispatch. -/
def cmdLoadHandler (st : St) (args : Json) (wr : Except String Unit) :
    St × List OsCall × List Json :=
  let st1 :=
    match st.store, truthyField args "model_name" with
    | some s, some v => {st with store := some {s with model := some v}}
    | _, _ => st
  sendCmd st1 wr "load" args

/-- The `cmd:start` handler: persist a truthy `language`, then dispatch. -/
def cmdStartHandler (st : St) (args : Json) (wr : Except String Unit) :
    St × List OsCall × List Json :=
  let st1 :=
    match st.store, truthyField args "language" with
    | some s, some v => {st with store := some {s with language := some v}}
    | _, _ => st
  sendCmd st1 wr "start" args

/-- The `cmd:stop` handler. -/
def cmdStopHandler (st : St) (wr : Except String Unit) : St × List OsCall × List Json :=
  sendCmd st wr "stop" (Json.obj [])

/-- The `cmd:status` handler. -/
def cmdStatusHandler (st : St) (wr : Except String Unit) : St × List OsCall × List Json :=
  sendCmd st wr "status" (Json.obj [])

/-! ## The combined step relation -/

/-- One observable input to the main process: stream data, process events,
IPC invocations, hotkey presses, startup steps. Environment outcomes
(write results, registration results) are carried in the action. -/
inductive Act where
  | stdoutData (chunk : String) : Act
  | stderrData (chunk : String) : Act
  | closeEvt (code : Option Int) (signal : Option String) : Act
  | spawnErr (msg : String) : Act
  | sendCmdA (cmd : String) (args : Json) (wr : Except String Unit) : Act
  | cmdLoad (args : Json) (wr : Except String Unit) : Act
  | cmdStart (args : Json) (wr : Except String Unit) : Act
  | cmdStop (wr : Except String Unit) : Act
  | cmdStatus (wr : Except String Unit) : Act
  | hotkeySetA (accelerator language : String) (res : RegResult) : Act
  | hotkeyClearA : Act
  | pressA (wr : Except String Unit) : Act
  | startPyA (forcedPy projectRoot : String) (venvExists : Bool) : Act
  | restoreA (savedHotkey : Option String) (res : RegResult) : Act

/-- State evolution of `main.js` under one action. -/
def step (st : St) : Act → St
  | Act.stdoutData chunk => (onStdoutData st chunk).1
  | Act.stderrData chunk => (onStderrData st chunk).1
  | Act.closeEvt c s => (onClose st c s).1
  | Act.spawnErr m => (onSpawnError st m).1
  | Act.sendCmdA c a w => (sendCmd st w c a).1
  | Act.cmdLoad a w => (cmdLoadHandler st a w).1
  | Act.cmdStart a w => (cmdStartHandler st a w).1
  | Act.cmdStop w => (cmdStopHandler st w).1
  | Act.cmdStatus w => (cmdStatusHandler st w).1
  | Act.hotkeySetA acc lang res => (hotkeySet st acc lang res).1
  | Act.hotkeyClearA => (hotkeyClear st).1
  | Act.pressA w => (hotkeyPress st w).1
  | Act.startPyA fp pr ex => (startPython st fp pr ex).1
  | Act.restoreA hk res => (restoreOnLoad st hk res).1

/-- The run-state effect of decoding one stdout line: `some true` for a
`started` event, `some false` for a `stopped` event, `none` otherwise. -/
def lineRunEffect (line : String) : Option Bool :=
  match parseJsonTop line with
  | none => none
  | some evt =>
    match propAccess evt "event" with
    | none => none
    | some f =>
      if isEvtStr f "started" then some true
      else if isEvtStr f "stopped" then some false
      else none

/-- The initial module-level state of `main.js` (with a loaded store holding
no saved keys). -/
def st0 : St :=
  { running := false, py := false, registeredShortcut := none,
    lastProgress := none, store := some { model := none, language := none, hotkey := none },
    binding := none, osRegs := [] }

/-! ## Basic handler lemmas -/

/-- `sendCmd` never changes the module state. -/
theorem sendCmd_fst (st : St) (wr : Except String Unit) (cmd : String) (args : Json) :
    (sendCmd st wr cmd args).1 = st := by
  unfold sendCmd
  cases hpy : st.py <;> cases wr <;> simp [hpy]

/-- The stderr handler changes only `lastProgress`. -/
theorem onStderrData_running (st : St) (chunk : String) :
    (onStderrData st chunk).1.running = st.running := by
  unfold onStderrData
  cases scanPct none chunk.data <;> simp

/-- `hotkeySet` never changes `running`. -/
theorem hotkeySet_running (st : St) (acc lang : String) (res : RegResult) :
    (hotkeySet st acc lang res).1.running = st.running := by
  unfold hotkeySet
  cases hr : st.registeredShortcut <;> cases res <;> simp [hr]

/-- `hotkeyClear` never changes `running`. -/
theorem hotkeyClear_running (st : St) : (hotkeyClear st).1.running = st.running := by
  unfold hotkeyClear
  cases hr : st.registeredShortcut <;> simp [hr]

/-- A hotkey press never changes the module state (it only dispatches). -/
theorem hotkeyPress_fst (st : St) (wr : Except String Unit) :
    (hotkeyPress st wr).1 = st := by
  unfold hotkeyPress
  cases st.binding with
  | none => rfl
  | some b => cases b <;> cases hr : st.running <;> simp [hr, sendCmd_fst]

/-- The `cmd:load` handler never changes `running`. -/
theorem cmdLoadHandler_running (st : St) (args : Json) (wr : Except String Unit) :
    (cmdLoadHandler st args wr).1.running = st.running := by
  unfold cmdLoadHandler
  rw [sendCmd_fst]
  cases hs : st.store <;> cases ht : truthyField args "model_name" <;> simp

/-- The `cmd:start` handler never changes `running`. -/
theorem cmdStartHandler_running (st : St) (args : Json) (wr : Except String Unit) :
    (cmdStartHandler st args wr).1.running = st.running := by
  unfold cmdStartHandler
  rw [sendCmd_fst]
  cases hs : st.store <;> cases ht : truthyField args "language" <;> simp

/-- `startPython` never changes `running`. -/
theorem startPython_running (st : St) (fp pr : String) (ex : Bool) :
    (startPython st fp pr ex).1.running = st.running := by
  unfold startPython
  cases ex <;> simp

/-- The startup hotkey restore never changes `running`. -/
theorem restoreOnLoad_running (st : St) (hk : Option String) (res : RegResult) :
    (restoreOnLoad st hk res).1.running = st.running := by
  unfold restoreOnLoad
  cases hs : st.store with
  | none => rfl
  | some s =>
    cases hk with
    | none => cases ht : truthyJson s.language <;> simp [ht]
    | some a =>
      cases ht : truthyJson s.language with
      | none => simp [ht]
      | some v => by_cases ha : a = "" <;> cases res <;> simp [ht, ha]

/-- If a property-access result strictly equals two different strings, we
have a contradiction. -/
theorem isEvtStr_unique (f : Option Json) (s t : String)
    (hs : isEvtStr f s = true) (ht : isEvtStr f t = true) : s = t := by
  unfold isEvtStr at hs ht
  match f with
  | none => exact absurd hs (by simp)
  | some (Json.str u) =>
    simp only [decide_eq_true_eq] at hs ht
    rw [← hs, ← ht]
  | some Json.null | some (Json.bool _) | some (Json.num _)
  | some (Json.arr _) | some (Json.obj _) => exact absurd hs (by simp)

/-- The state effect of one stdout line is exactly `lineRunEffect`. -/
theorem onStdoutLine_fst (st : St) (line : String) :
    (onStdoutLine st line).1 =
      { st with running := match lineRunEffect line with
                           | some b => b
                           | none => st.running } := by
  unfold onStdoutLine lineRunEffect
  cases hp : parseJsonTop line with
  | none => simp
  | some evt =>
    cases hf : propAccess evt "event" with
    | none => simp [hf]
    | some f =>
      by_cases h1 : isEvtStr f "started" = true
      · have h2 : isEvtStr f "stopped" = false := by
          cases h2 : isEvtStr f "stopped"
          · rfl
          · exact absurd (isEvtStr_unique f "started" "stopped" h1 h2) (by decide)
        simp [hf, h1, h2]
      · rw [Bool.not_eq_true] at h1
        by_cases h2 : isEvtStr f "stopped" = true <;> simp [hf, h1, h2]

/-- The event forwarded for one stdout line does not depend on the state. -/
theorem onStdoutLine_snd (st st' : St) (line : String) :
    (onStdoutLine st line).2 = (onStdoutLine st' line).2 := by
  unfold onStdoutLine
  cases hp : parseJsonTop line with
  | none => rfl
  | some evt => cases hf : propAccess evt "event" <;> simp [hf]

/-- A change of the run flag across a list of stdout lines exhibits a line
whose decoded event is `started`/`stopped` accordingly. -/
theorem onStdoutLines_running (ls : List String) : ∀ st : St,
    (onStdoutLines st ls).1.running ≠ st.running →
    ∃ line ∈ ls, lineRunEffect line = some (onStdoutLines st ls).1.running := by
  induction ls with
  | nil => intro st h; exact absurd rfl h
  | cons l ls ih =>
    intro st h
    unfold onStdoutLines at h ⊢
    by_cases hr : (onStdoutLines (onStdoutLine st l).1 ls).1.running
        = (onStdoutLine st l).1.running
    · rw [hr] at h ⊢
      have he := onStdoutLine_fst st l
      cases hv : lineRunEffect l with
      | none =>
        rw [he, hv] at h
        exact absurd rfl h
      | some b =>
        refine ⟨l, List.mem_cons_self _ _, ?_⟩
        rw [he, hv]
    · obtain ⟨line, hmem, heff⟩ := ih (onStdoutLine st l).1 hr
      exact ⟨line, List.mem_cons_of_mem _ hmem, heff⟩

/-- The events a chunk produces do not depend on the threaded state and are
exactly one event per retained line. -/
theorem onStdoutLines_snd (ls : List String) : ∀ st : St,
    (onStdoutLines st ls).2 = ls.map (fun l => (onStdoutLine st l).2) := by
  induction ls with
  | nil => intro st; rfl
  | cons l ls ih =>
    intro st
    unfold onStdoutLines
    rw [ih (onStdoutLine st l).1]
    simp only [List.map_cons, List.cons.injEq, true_and]
    exact List.map_congr_left (fun l' _ => onStdoutLine_snd _ _ l')

/-! ## Claim theorems -/

/-- C1 (counterexample): with the worker marked running, the `close` handler
emits the `exit` event but leaves the `running` flag `true` — refuting the
claim that the exit-watcher sets RunState to false. -/
theorem c1_exit_counterexample :
    ({ st0 with py := true, running := true } : St).running = true ∧
    (onClose { st0 with py := true, running := true } (some 1) none).1.running = true ∧
    (onClose { st0 with py := true, running := true } (some 1) none).2 =
      [exitEvent (some 1) none] :=
  ⟨rfl, rfl, rfl⟩

/-- C1 (amended): when the worker process terminates, the exit-watcher emits
an `exit` event carrying the exit code and signal, and leaves the module
state — in particular the `running` flag — unchanged. -/
theorem c1_exit_amended (st : St) (code : Option Int) (signal : Option String) :
    onClose st code signal = (st, [exitEvent code signal]) ∧
    (onClose st code signal).1.running = st.running :=
  ⟨rfl, rfl⟩

/-- C3: a non-empty stdout line that is not valid JSON decodes to a `log`
event carrying the exact original line with the state unchanged (no
exception escapes, the handler is total); and a chunk produces exactly one
event per retained line, where the retained lines are the split lines with
empty lines filtered out — empty lines produce no event at all. -/
theorem c3_decode_fallback (st : St) (line : String) (chunk : String) :
    (parseJsonTop line = none → onStdoutLine st line = (st, logEvent line)) ∧
    (onStdoutData st chunk).2 = (stdoutLines chunk).map (fun l => (onStdoutLine st l).2) ∧
    (∀ l ∈ stdoutLines chunk, l ≠ "") := by
  refine ⟨?_, onStdoutLines_snd _ st, ?_⟩
  · intro hp
    unfold onStdoutLine
    rw [hp]
  · intro l hl
    unfold stdoutLines at hl
    exact of_decide_eq_true (List.mem_filter.mp hl).2

/-- C3 witness: the end-to-end example line `Loaded model tiny` is not JSON
and becomes a `log` event wrapping it verbatim; a chunk of two newlines
produces no events. -/
theorem c3_decode_fallback_witness :
    parseJsonTop "Loaded model tiny" = none ∧
    onStdoutLine st0 "Loaded model tiny" = (st0, logEvent "Loaded model tiny") ∧
    (onStdoutData st0 "\n\n").2 = [] :=
  ⟨by rfl, (c3_decode_fallback st0 "Loaded model tiny" "\n\n").1 (by rfl),
   by rw [(c3_decode_fallback st0 "Loaded model tiny" "\n\n").2.1]; rfl⟩

/-- C4: the `running` flag changes under a step only if the action is a
stdout chunk one of whose retained lines decodes to a `started`/`stopped`
event matching the new flag value; dispatching a command (`sendCmd`) never
changes the state at all. -/
theorem c4_runstate_observed_only (st : St) (a : Act) :
    ((step st a).running ≠ st.running →
      ∃ chunk, a = Act.stdoutData chunk ∧
        ∃ line ∈ stdoutLines chunk, lineRunEffect line = some (step st a).running) ∧
    (∀ cmd args wr, step st (Act.sendCmdA cmd args wr) = st) := by
  constructor
  · intro h
    cases a with
    | stdoutData chunk => exact ⟨chunk, rfl, onStdoutLines_running _ st h⟩
    | stderrData chunk => exact absurd (onStderrData_running st chunk) h
    | closeEvt c s => exact absurd rfl h
    | spawnErr m => exact absurd rfl h
    | sendCmdA c a w => exact absurd (congrArg St.running (sendCmd_fst st w c a)) h
    | cmdLoad a w => exact absurd (cmdLoadHandler_running st a w) h
    | cmdStart a w => exact absurd (cmdStartHandler_running st a w) h
    | cmdStop w => exact absurd (congrArg St.running (sendCmd_fst st w "stop" (Json.obj []))) h
    | cmdStatus w =>
      exact absurd (congrArg St.running (sendCmd_fst st w "status" (Json.obj []))) h
    | hotkeySetA acc lang res => exact absurd (hotkeySet_running st acc lang res) h
    | hotkeyClearA => exact absurd (hotkeyClear_running st) h
    | pressA w => exact absurd (congrArg St.running (hotkeyPress_fst st w)) h
    | startPyA fp pr ex => exact absurd (startPython_running st fp pr ex) h
    | restoreA hk res => exact absurd (restoreOnLoad_running st hk res) h
  · intro cmd args wr
    exact sendCmd_fst st wr cmd args

/-- The wire line `'\x7b"event":"started"\x7d'` used in witnesses. -/
def startedLine : String := "\x7b\"event\":\"started\"\x7d"

/-- C4 witness: decoding a `started` event flips the flag and the theorem
exhibits the responsible line; a dispatched command leaves the state alone. -/
theorem c4_runstate_observed_only_witness :
    (step st0 (Act.stdoutData startedLine)).running ≠ st0.running ∧
    (∃ chunk, Act.stdoutData startedLine = Act.stdoutData chunk ∧
      ∃ line ∈ stdoutLines chunk,
        lineRunEffect line = some (step st0 (Act.stdoutData startedLine)).running) ∧
    step st0 (Act.sendCmdA "start" (Json.obj []) (Except.ok ())) = st0 :=
  ⟨by decide,
   (c4_runstate_observed_only st0 (Act.stdoutData startedLine)).1 (by decide),
   (c4_runstate_observed_only st0 (Act.stdoutData startedLine)).2 "start" (Json.obj [])
     (Except.ok ())⟩

/-- The accelerator bookkeeping invariant: the OS registrations held by the
app are exactly the recorded shortcut. -/
def bindingInv (st : St) : Prop :=
  st.osRegs = (match st.registeredShortcut with
               | some a => [a]
               | none => [])

/-- C5: `hotkey:set` keeps at most one live registration: it preserves the
bookkeeping invariant, the previous accelerator is unregistered before the
new registration call, and on failure (`false` return or exception) no
binding remains recorded; `hotkey:clear` preserves the invariant too. -/
theorem c5_single_registration (st : St) (acc lang : String) (res : RegResult)
    (hInv : bindingInv st) :
    bindingInv (hotkeySet st acc lang res).1 ∧
    (hotkeySet st acc lang res).1.osRegs.length ≤ 1 ∧
    (∀ prev, st.registeredShortcut = some prev →
      (hotkeySet st acc lang res).2.1 =
        [OsCall.unregShortcut prev, OsCall.regShortcut acc]) ∧
    (res ≠ RegResult.ok →
      (hotkeySet st acc lang res).1.registeredShortcut = none ∧
      (hotkeySet st acc lang res).1.osRegs = []) ∧
    bindingInv (hotkeyClear st).1 := by
  unfold bindingInv at hInv ⊢
  unfold hotkeySet hotkeyClear
  cases hr : st.registeredShortcut with
  | none =>
    rw [hr] at hInv
    cases res <;> simp [hr, hInv]
  | some prev =>
    rw [hr] at hInv
    cases res <;> simp [hr, hInv, List.erase_cons_head]

/-- A state with an active binding (used by several witnesses). -/
def stBound : St :=
  { st0 with registeredShortcut := some "CommandOrControl+X",
             osRegs := ["CommandOrControl+X"],
             binding := some (Binding.closureLang "en") }

/-- C5 witness: rebinding over an active registration with a failing
`register` call unregisters the old accelerator first and leaves no binding
recorded. -/
theorem c5_single_registration_witness :
    bindingInv stBound ∧
    bindingInv (hotkeySet stBound "Alt+Z" "de" RegResult.failed).1 ∧
    (hotkeySet stBound "Alt+Z" "de" RegResult.failed).2.1 =
      [OsCall.unregShortcut "CommandOrControl+X", OsCall.regShortcut "Alt+Z"] ∧
    (hotkeySet stBound "Alt+Z" "de" RegResult.failed).1.registeredShortcut = none :=
  have h := c5_single_registration stBound "Alt+Z" "de" RegResult.failed (by rfl)
  ⟨by rfl, h.1, h.2.2.1 "CommandOrControl+X" rfl,
   (h.2.2.2.1 (fun hcon => RegResult.noConfusion hcon)).1⟩

/-- C6: the hotkey handler reads the `running` flag at invocation time: in
any state whose binding captured `lang`, a press dispatches `stop` when
`running` is true and `start` with that language when it is false. -/
theorem c6_toggle_reads_runstate (st : St) (wr : Except String Unit) (lang : String)
    (hb : st.binding = some (Binding.closureLang lang)) :
    (st.running = true → hotkeyPress st wr = sendCmd st wr "stop" (Json.obj [])) ∧
    (st.running = false →
      hotkeyPress st wr = sendCmd st wr "start" (Json.obj [("language", Json.str lang)])) := by
  unfold hotkeyPress
  rw [hb]
  constructor <;> intro h <;> simp [h]

/-- The end-to-end state: a bound toggle after the worker reported `started`. -/
def stAfterStart : St := step stBound (Act.stdoutData startedLine)

/-- C6 witness: after the worker emits `\x7b"event":"started"\x7d` the flag
is true and a press dispatches `stop`, not `start`. -/
theorem c6_toggle_reads_runstate_witness :
    stAfterStart.binding = some (Binding.closureLang "en") ∧
    stAfterStart.running = true ∧
    hotkeyPress stAfterStart (Except.ok ()) =
      sendCmd stAfterStart (Except.ok ()) "stop" (Json.obj []) :=
  ⟨by rfl, by rfl,
   (c6_toggle_reads_runstate stAfterStart (Except.ok ()) "en" (by rfl)).1 (by rfl)⟩

/-- C7: with the forced interpreter absent, `startPython` emits the
diagnostic `stderr` event, performs no OS call (in particular no spawn), and
leaves the state unchanged — the supervisor keeps no worker handle. -/
theorem c7_missing_interpreter (st : St) (forcedPy projectRoot : String)
    (hpy : st.py = false) :
    startPython st forcedPy projectRoot false =
      (st, [], [stderrEvent (missingInterpreterMsg forcedPy projectRoot)]) ∧
    (startPython st forcedPy projectRoot false).1.py = false :=
  ⟨rfl, hpy⟩

/-- C7 witness at a concrete missing path. -/
theorem c7_missing_interpreter_witness :
    st0.py = false ∧
    startPython st0 "/repo/.venv/bin/python" "/repo" false =
      (st0, [], [stderrEvent (missingInterpreterMsg "/repo/.venv/bin/python" "/repo")]) :=
  ⟨rfl, (c7_missing_interpreter st0 "/repo/.venv/bin/python" "/repo" rfl).1⟩

/-- C8: dispatching with no worker handle reports the error event and
performs no stream write; with a handle but a failing write, the failure is
caught and reported as an event (the handler is total, nothing escapes). -/
theorem c8_dispatch_errors (st : St) (cmd : String) (args : Json)
    (wr : Except String Unit) :
    (st.py = false →
      sendCmd st wr cmd args = (st, [], [stderrEvent "Python server is not running yet."])) ∧
    (∀ msg, st.py = true → wr = Except.error msg →
      sendCmd st wr cmd args =
        (st, [OsCall.stdinWrite (encodeCmdPayload cmd args)],
         [stderrEvent ("Failed to send command: " ++ msg)])) := by
  constructor
  · intro h
    simp [sendCmd, h]
  · intro msg h hw
    subst hw
    simp [sendCmd, h, encodeCmdPayload]

/-- A state holding a worker handle. -/
def stPy : St := { st0 with py := true }

/-- C8 witness: a `status` dispatch with no process reports and writes
nothing; a broken-pipe write is caught and reported. -/
theorem c8_dispatch_errors_witness :
    st0.py = false ∧
    sendCmd st0 (Except.ok ()) "status" (Json.obj []) =
      (st0, [], [stderrEvent "Python server is not running yet."]) ∧
    sendCmd stPy (Except.error "EPIPE") "status" (Json.obj []) =
      (stPy, [OsCall.stdinWrite (encodeCmdPayload "status" (Json.obj []))],
       [stderrEvent ("Failed to send command: " ++ "EPIPE")]) :=
  ⟨rfl, (c8_dispatch_errors st0 "status" (Json.obj []) (Except.ok ())).1 rfl,
   (c8_dispatch_errors stPy "status" (Json.obj []) (Except.error "EPIPE")).2 "EPIPE" rfl rfl⟩

/-- C10: a binding made through `hotkey:set` captured its language at bind
time — a press dispatches `start` with exactly that language, whatever the
store holds, and changing the store does not affect it; the startup-restored
binding instead reads the store's language at each press, defaulting to
`"en"` when it is absent. -/
theorem c10_language_binding (st : St) (wr : Except String Unit) (lang : String)
    (store2 : Option Store) :
    (st.binding = some (Binding.closureLang lang) → st.running = false →
      hotkeyPress st wr = sendCmd st wr "start" (Json.obj [("language", Json.str lang)]) ∧
      hotkeyPress { st with store := store2 } wr =
        sendCmd { st with store := store2 } wr "start"
          (Json.obj [("language", Json.str lang)])) ∧
    (st.binding = some Binding.storeLang → st.running = false →
      hotkeyPress st wr =
        sendCmd st wr "start" (Json.obj [("language", orEnJson (storeGetLanguage st.store))])) ∧
    (st.binding = some Binding.storeLang → st.running = false →
      storeGetLanguage st.store = none →
      hotkeyPress st wr = sendCmd st wr "start" (Json.obj [("language", Json.str "en")])) := by
  refine ⟨?_, ?_, ?_⟩
  · intro hb hr
    constructor <;> (unfold hotkeyPress; simp [hb, hr])
  · intro hb hr
    unfold hotkeyPress
    simp [hb, hr]
  · intro hb hr hn
    unfold hotkeyPress
    simp [hb, hr, hn, orEnJson]

/-- A state whose binding is the startup-restored store-reading closure. -/
def stStoreBound : St := { st0 with binding := some Binding.storeLang }

/-- C10 witness: the captured-language binding dispatches `"en"` regardless
of the store (even with the store gone), and the restored binding defaults
to `"en"` with no saved language. -/
theorem c10_language_binding_witness :
    hotkeyPress stBound (Except.ok ()) =
      sendCmd stBound (Except.ok ()) "start" (Json.obj [("language", Json.str "en")]) ∧
    hotkeyPress { stBound with store := none } (Except.ok ()) =
      sendCmd { stBound with store := none } (Except.ok ()) "start"
        (Json.obj [("language", Json.str "en")]) ∧
    hotkeyPress stStoreBound (Except.ok ()) =
      sendCmd stStoreBound (Except.ok ()) "start" (Json.obj [("language", Json.str "en")]) :=
  have h := c10_language_binding stBound (Except.ok ()) "en" none
  ⟨(h.1 rfl rfl).1, (h.1 rfl rfl).2,
   (c10_language_binding stStoreBound (Except.ok ()) "en" none).2.2 rfl rfl rfl⟩

/-! ## Percent-scanner lemmas (C2) -/

/-- Digit characters have code points between 48 and 57. -/
theorem isDigit_toNat {c : Char} (h : c.isDigit = true) :
    48 ≤ c.toNat ∧ c.toNat ≤ 57 := by
  unfold Char.isDigit at h
  rw [Bool.and_eq_true] at h
  obtain ⟨h1, h2⟩ := h
  rw [decide_eq_true_eq] at h1 h2
  exact ⟨UInt32.le_toNat_of_le (by decide) h1, UInt32.toNat_le_of_le (by decide) h2⟩

/-- Every capture of the digit matcher has numeric value at most 100. -/
theorem matchPctAt_le (cs ds : List Char) (h : matchPctAt cs = some ds) :
    digitsVal ds ≤ 100 := by
  cases cs with
  | nil => simp [matchPctAt] at h
  | cons c1 t1 =>
    cases t1 with
    | nil => simp [matchPctAt] at h
    | cons c2 t2 =>
      cases t2 with
      | nil =>
        simp only [matchPctAt] at h
        split_ifs at h with h1
        rw [Bool.and_eq_true, decide_eq_true_eq] at h1
        obtain ⟨hd1, _⟩ := h1
        obtain ⟨_, hb1⟩ := isDigit_toNat hd1
        cases h
        simp only [digitsVal, List.foldl]
        omega
      | cons c3 t3 =>
        simp only [matchPctAt] at h
        split_ifs at h with h1 h2 h3
        · rw [Bool.and_eq_true, Bool.and_eq_true] at h1
          obtain ⟨⟨hd1, hd2⟩, _⟩ := h1
          obtain ⟨_, hb1⟩ := isDigit_toNat hd1
          obtain ⟨_, hb2⟩ := isDigit_toNat hd2
          cases h
          simp only [digitsVal, List.foldl]
          omega
        · rw [Bool.and_eq_true, decide_eq_true_eq] at h2
          obtain ⟨hd1, _⟩ := h2
          obtain ⟨_, hb1⟩ := isDigit_toNat hd1
          cases h
          simp only [digitsVal, List.foldl]
          omega
        · cases h
          decide

/-- Every successful position attempt comes from the digit matcher. -/
theorem posOk_matchPctAt (prev : Option Char) (cs ds : List Char)
    (h : posOk prev cs = some ds) : ∃ cs', matchPctAt cs' = some ds := by
  unfold posOk at h
  cases hb : (if wordBoundary prev cs.head? then matchPctAt cs else none) with
  | some ds0 =>
    rw [hb] at h
    simp at h
    subst h
    split_ifs at hb with hw
    exact ⟨cs, hb⟩
  | none =>
    rw [hb] at h
    cases cs with
    | nil => simp at h
    | cons c rest =>
      simp only [] at h
      split_ifs at h with hc
      exact ⟨rest, h⟩

/-- Definitional unfolding of the scanner. -/
theorem scanPct_eq (prev : Option Char) (cs : List Char) :
    scanPct prev cs =
      match posOk prev cs with
      | some ds => some ds
      | none =>
        match cs with
        | c :: rest => scanPct (some c) rest
        | [] => none := by
  cases cs with
  | nil => cases hp : posOk prev [] <;> simp [scanPct, hp]
  | cons c rest => rfl

/-- Every scan result comes from the digit matcher. -/
theorem scanPct_matchPctAt : ∀ (cs : List Char) (prev : Option Char) (ds : List Char),
    scanPct prev cs = some ds → ∃ cs', matchPctAt cs' = some ds := by
  intro cs
  induction cs with
  | nil =>
    intro prev ds h
    rw [scanPct_eq] at h
    cases hp : posOk prev [] with
    | some ds0 =>
      rw [hp] at h
      simp at h
      subst h
      exact posOk_matchPctAt _ _ _ hp
    | none =>
      rw [hp] at h
      simp at h
  | cons c rest ih =>
    intro prev ds h
    rw [scanPct_eq] at h
    cases hp : posOk prev (c :: rest) with
    | some ds0 =>
      rw [hp] at h
      simp at h
      subst h
      exact posOk_matchPctAt _ _ _ hp
    | none =>
      rw [hp] at h
      exact ih (some c) ds h

/-- The character preceding a scan position: the last character of the
consumed prefix, or the context character when the prefix is empty. -/
def lastOpt (prev : Option Char) : List Char → Option Char
  | [] => prev
  | c :: pre => lastOpt (some c) pre

/-- The scan finds a match exactly when the input splits into a prefix and a
suffix at which the full pattern matches (with the correct preceding-character
context). -/
theorem scanPct_isSome_iff : ∀ (cs : List Char) (prev : Option Char),
    (scanPct prev cs).isSome ↔
      ∃ pre suf, cs = pre ++ suf ∧ (posOk (lastOpt prev pre) suf).isSome := by
  intro cs
  induction cs with
  | nil =>
    intro prev
    rw [scanPct_eq]
    constructor
    · intro h
      cases hp : posOk prev [] with
      | some ds =>
        refine ⟨[], [], rfl, ?_⟩
        rw [show lastOpt prev [] = prev from rfl, hp]
        rfl
      | none => rw [hp] at h; simp at h
    · rintro ⟨pre, suf, heq, hok⟩
      obtain ⟨rfl, rfl⟩ := List.append_eq_nil.mp heq.symm
      rw [show lastOpt prev [] = prev from rfl] at hok
      cases hp : posOk prev [] with
      | some ds => rfl
      | none => rw [hp] at hok; simp at hok
  | cons c rest ih =>
    intro prev
    rw [scanPct_eq]
    cases hp : posOk prev (c :: rest) with
    | some ds =>
      simp only [Option.isSome_some, true_iff]
      refine ⟨[], c :: rest, rfl, ?_⟩
      rw [show lastOpt prev [] = prev from rfl, hp]
      rfl
    | none =>
      rw [ih (some c)]
      constructor
      · rintro ⟨pre, suf, heq, hok⟩
        exact ⟨c :: pre, suf, by rw [heq]; rfl, hok⟩
      · rintro ⟨pre, suf, heq, hok⟩
        cases pre with
        | nil =>
          rw [List.nil_append] at heq
          subst heq
          rw [show lastOpt prev [] = prev from rfl, hp] at hok
          simp at hok
        | cons c0 pre' =>
          rw [List.cons_append] at heq
          injection heq with hc hr
          subst hc
          exact ⟨pre', suf, hr, hok⟩

/-- Formalisation of the pattern as the claim words it: a substring of one
to three digits followed by `%`, with numeric value in `[0, 100]`, preceded
by a word boundary or an opening parenthesis. This is the spec-side
definition, to be compared against the source's scanner. -/
def specPctPattern (s : String) : Bool :=
  let cs := s.data
  (List.range (cs.length + 1)).any (fun i =>
    (List.range 3).any (fun k0 =>
      let k := k0 + 1
      let ds := (cs.drop i).take k
      decide (ds.length = k) && ds.all Char.isDigit &&
      decide ((cs.drop (i + k)).head? = some '%') &&
      decide (digitsVal ds ≤ 100) &&
      (wordBoundary (lastOpt none (cs.take i)) (cs.drop i).head? ||
       decide (lastOpt none (cs.take i) = some '('))))

/-- C2 (counterexample): the chunk `075%` contains a three-digit substring
`075` of value 75 in `[0, 100]`, preceded by a word boundary and followed by
`%` — so the claim demands a progress event — yet the code's regex does not
match it: the handler emits a `stderr` event with the full chunk and leaves
`lastProgress` untouched. -/
theorem c2_progress_counterexample :
    specPctPattern "075%" = true ∧
    onStderrData st0 "075%" = (st0, stderrEvent "075%") ∧
    (onStderrData st0 "075%").1.lastProgress = none :=
  ⟨by rfl, by rfl, by rfl⟩

/-- C2 (amended): for every stderr chunk containing an occurrence of the
pattern the code actually matches — one or two digits, or the exact digits
`100`, followed by `%`, preceded by a word boundary or `(` — the handler
emits a progress event whose percent is the first match's numeric value
(necessarily in `[0, 100]`) and whose message is the trimmed chunk, and
records the percent in `lastProgress`; for every chunk with no such
occurrence it emits a `stderr` event carrying the full original chunk. -/
theorem c2_progress_amended (st : St) (chunk : String) :
    ((∃ pre suf, chunk.data = pre ++ suf ∧ (posOk (lastOpt none pre) suf).isSome) →
      ∃ ds, scanPct none chunk.data = some ds ∧ digitsVal ds ≤ 100 ∧
        onStderrData st chunk =
          ({ st with lastProgress := some (digitsVal ds) },
           progressEvent (digitsVal ds) chunk.trim)) ∧
    ((¬ ∃ pre suf, chunk.data = pre ++ suf ∧ (posOk (lastOpt none pre) suf).isSome) →
      onStderrData st chunk = (st, stderrEvent chunk)) := by
  constructor
  · intro hex
    have hs : (scanPct none chunk.data).isSome :=
      (scanPct_isSome_iff chunk.data none).mpr hex
    obtain ⟨ds, hds⟩ := Option.isSome_iff_exists.mp hs
    obtain ⟨cs', hcs'⟩ := scanPct_matchPctAt chunk.data none ds hds
    refine ⟨ds, hds, matchPctAt_le cs' ds hcs', ?_⟩
    unfold onStderrData
    rw [hds]
  · intro hnex
    have hnone : scanPct none chunk.data = none := by
      cases hs : scanPct none chunk.data with
      | none => rfl
      | some ds =>
        exact absurd ((scanPct_isSome_iff chunk.data none).mp (by rw [hs]; rfl)) hnex
    unfold onStderrData
    rw [hnone]

/-- C2 witness: the spec's own end-to-end example — the chunk
`Downloading model... (45%)` — matches at the parenthesis, and the handler
emits a progress event with percent 45 and the trimmed chunk, recording 45. -/
theorem c2_progress_amended_witness :
    (∃ pre suf, ("Downloading model... (45%)").data = pre ++ suf ∧
      (posOk (lastOpt none pre) suf).isSome) ∧
    scanPct none ("Downloading model... (45%)").data = some ['4', '5'] ∧
    onStderrData st0 "Downloading model... (45%)" =
      ({ st0 with lastProgress := some 45 },
       progressEvent 45 ("Downloading model... (45%)").trim) := by
  have hex : ∃ pre suf, ("Downloading model... (45%)").data = pre ++ suf ∧
      (posOk (lastOpt none pre) suf).isSome :=
    ⟨("Downloading model... ").data, ("(45%)").data, by rfl, by rfl⟩
  refine ⟨hex, by rfl, ?_⟩
  obtain ⟨ds, hds, hle, heq⟩ := (c2_progress_amended st0 "Downloading model... (45%)").1 hex
  have hds2 : ds = ['4', '5'] := by
    have h2 : scanPct none ("Downloading model... (45%)").data = some ['4', '5'] := by rfl
    rw [hds] at h2
    exact Option.some.inj h2
  rw [hds2] at heq
  exact heq

/-! ## Decimal digit lemmas (C9) -/

/-- Value of `Nat.digitChar` for decimal digits. -/
theorem digitChar_toNat (d : Nat) (h : d < 10) : (Nat.digitChar d).toNat = 48 + d := by
  interval_cases d <;> decide

/-- `Nat.digitChar` of a decimal digit is a digit character. -/
theorem digitChar_isDigit (d : Nat) (h : d < 10) : (Nat.digitChar d).isDigit = true := by
  interval_cases d <;> decide

/-- `Nat.digitChar` of a nonzero decimal digit is not `'0'`. -/
theorem digitChar_ne_zero (d : Nat) (h1 : d < 10) (h2 : d ≠ 0) : Nat.digitChar d ≠ '0' := by
  interval_cases d
  · exact absurd rfl h2
  all_goals decide

/-- `hexVal` inverts `Nat.digitChar` on hexadecimal digits. -/
theorem hexVal_digitChar (d : Nat) (h : d < 16) : hexVal (Nat.digitChar d) = some d := by
  interval_cases d <;> decide

/-- The decimal rendering of a natural number is never empty. -/
theorem natToDigits_ne_nil (n : Nat) : natToDigits n ≠ [] := by
  rw [natToDigits]
  by_cases h : n < 10 <;> simp [h]

/-- Every character of the decimal rendering is a digit. -/
theorem natToDigits_digits : ∀ n : Nat, ∀ c ∈ natToDigits n, c.isDigit = true := by
  intro n
  induction n using Nat.strong_induction_on with
  | _ n ih =>
    intro c hc
    rw [natToDigits] at hc
    by_cases h : n < 10
    · rw [dif_pos h] at hc
      rw [List.mem_singleton] at hc
      subst hc
      exact digitChar_isDigit n h
    · rw [dif_neg h] at hc
      rw [List.mem_append] at hc
      rcases hc with hc | hc
      · exact ih (n / 10) (Nat.div_lt_self (by omega) (by omega)) c hc
      · rw [List.mem_singleton] at hc
        subst hc
        exact digitChar_isDigit (n % 10) (Nat.mod_lt _ (by omega))

/-- The leading character of the decimal rendering of a nonzero number is
not `'0'`. -/
theorem natToDigits_head_ne_zero : ∀ n : Nat, n ≠ 0 → ∀ d ds,
    natToDigits n = d :: ds → d ≠ '0' := by
  intro n
  induction n using Nat.strong_induction_on with
  | _ n ih =>
    intro hn d ds heq
    rw [natToDigits] at heq
    by_cases h : n < 10
    · rw [dif_pos h] at heq
      injection heq with h1 _
      subst h1
      exact digitChar_ne_zero n h hn
    · rw [dif_neg h] at heq
      cases hd : natToDigits (n / 10) with
      | nil => exact absurd hd (natToDigits_ne_nil _)
      | cons d0 ds0 =>
        rw [hd, List.cons_append] at heq
        injection heq with h1 _
        subst h1
        exact ih (n / 10) (Nat.div_lt_self (by omega) (by omega)) (by omega) d0 ds0 hd

/-- Folding the digit accumulator over the decimal rendering recovers the
number. -/
theorem foldl_natToDigits : ∀ n acc : Nat,
    List.foldl (fun a c => a * 10 + (c.toNat - 48)) acc (natToDigits n) =
      acc * 10 ^ (natToDigits n).length + n := by
  intro n
  induction n using Nat.strong_induction_on with
  | _ n ih =>
    intro acc
    rw [natToDigits]
    by_cases h : n < 10
    · rw [dif_pos h]
      simp only [List.foldl, List.length_singleton]
      rw [digitChar_toNat n h]
      omega
    · rw [dif_neg h]
      rw [List.foldl_append, List.length_append]
      rw [ih (n / 10) (Nat.div_lt_self (by omega) (by omega)) acc]
      simp only [List.foldl, List.length_singleton]
      rw [digitChar_toNat (n % 10) (Nat.mod_lt _ (by omega))]
      have hpow : 10 ^ ((natToDigits (n / 10)).length + 1) =
          10 ^ (natToDigits (n / 10)).length * 10 := by ring
      rw [hpow, ← Nat.mul_assoc]
      omega

/-- A list whose head (if any) is not a decimal digit; the number reader
stops before it. -/
def noDigitHead (cs : List Char) : Prop :=
  ∀ c, cs.head? = some c → c.isDigit = false

/-- The greedy digit reader consumes exactly a digit block followed by a
non-digit boundary. -/
theorem parseDigits_append : ∀ (ds rest : List Char) (acc : Nat),
    (∀ c ∈ ds, c.isDigit = true) → noDigitHead rest →
    parseDigits (ds ++ rest) acc =
      (List.foldl (fun a c => a * 10 + (c.toNat - 48)) acc ds, rest) := by
  intro ds
  induction ds with
  | nil =>
    intro rest acc _ hrest
    cases rest with
    | nil => simp [parseDigits]
    | cons c r => simp [parseDigits, hrest c rfl]
  | cons d ds ih =>
    intro rest acc hds hrest
    have hd : d.isDigit = true := hds d (List.mem_cons_self _ _)
    simp only [List.cons_append, parseDigits, hd, if_true]
    exact ih rest _ (fun c hc => hds c (List.mem_cons_of_mem _ hc)) hrest

/-- The number reader inverts the decimal rendering. -/
theorem parseNumTail_natToDigits (n : Nat) (rest : List Char)
    (hrest : noDigitHead rest) :
    parseNumTail (natToDigits n ++ rest) = some (n, rest) := by
  by_cases h0 : n = 0
  · subst h0
    rw [show natToDigits 0 = ['0'] from by
      rw [natToDigits, dif_pos (by omega : (0 : Nat) < 10)]
      rfl]
    simp [parseNumTail]
  · cases hd : natToDigits n with
    | nil => exact absurd hd (natToDigits_ne_nil n)
    | cons d ds =>
      have hdd : d.isDigit = true :=
        natToDigits_digits n d (by rw [hd]; exact List.mem_cons_self _ _)
      have hdz : d ≠ '0' := natToDigits_head_ne_zero n h0 d ds hd
      rw [List.cons_append]
      simp only [parseNumTail]
      rw [if_neg hdz, if_pos hdd]
      rw [parseDigits_append ds rest (d.toNat - 48)
        (fun c hc => natToDigits_digits n c (by rw [hd]; exact List.mem_cons_of_mem _ hc))
        hrest]
      have hf := foldl_natToDigits n 0
      rw [hd] at hf
      simp only [List.foldl, Nat.zero_mul, Nat.zero_add] at hf
      rw [hf]

/-! ## String escaping lemmas (C9) -/

/-- `Char.ofNat` of a number known to be a character's code point. -/
theorem charOfNat_eq (m : Nat) (c : Char) (h : m = c.toNat) : Char.ofNat m = c := by
  rw [h, Char.ofNat_toNat]

/-- The string-body parser inverts the escaper: parsing the escaped body
followed by the closing quote yields the original characters. -/
theorem parseStrBody_escBody : ∀ (l rest : List Char),
    parseStrBody (escBody l ++ quoteChar :: rest) = some (l, rest) := by
  intro l
  induction l with
  | nil =>
    intro rest
    rw [show escBody [] ++ quoteChar :: rest = quoteChar :: rest from by simp [escBody]]
    rw [parseStrBody.eq_def]
    simp
  | cons c l ih =>
    intro rest
    have hesc : escBody (c :: l) ++ quoteChar :: rest
        = escChar c ++ (escBody l ++ quoteChar :: rest) := by
      simp [escBody, List.append_assoc]
    have ih2 : parseStrBody (escBody l ++ Char.ofNat 34 :: rest) = some (l, rest) := ih rest
    rw [hesc]
    unfold escChar
    split_ifs with h1 h2 h3 h4 h5 h6 h7 h8
    · subst h1; rw [List.cons_append, List.cons_append, List.nil_append,
        parseStrBody.eq_def]; simp [unescapeChar, quoteChar, backslashChar, ih2]
    · subst h2; rw [List.cons_append, List.cons_append, List.nil_append,
        parseStrBody.eq_def]; simp [unescapeChar, quoteChar, backslashChar, ih2]
    · subst h3; rw [List.cons_append, List.cons_append, List.nil_append,
        parseStrBody.eq_def]; simp [unescapeChar, quoteChar, backslashChar, ih2]
    · subst h4; rw [List.cons_append, List.cons_append, List.nil_append,
        parseStrBody.eq_def]; simp [unescapeChar, quoteChar, backslashChar, ih2]
    · subst h5; rw [List.cons_append, List.cons_append, List.nil_append,
        parseStrBody.eq_def]; simp [unescapeChar, quoteChar, backslashChar, ih2]
    · subst h6; rw [List.cons_append, List.cons_append, List.nil_append,
        parseStrBody.eq_def]; simp [unescapeChar, quoteChar, backslashChar, ih2]
    · subst h7; rw [List.cons_append, List.cons_append, List.nil_append,
        parseStrBody.eq_def]; simp [unescapeChar, quoteChar, backslashChar, ih2]
    · have hdiv : c.toNat / 16 < 16 := by omega
      have hmod : c.toNat % 16 < 16 := Nat.mod_lt _ (by omega)
      simp only [List.cons_append, List.nil_append]
      rw [parseStrBody.eq_def]
      simp [show hexVal '0' = some 0 from by decide, hexVal_digitChar _ hdiv,
        hexVal_digitChar _ hmod, quoteChar, backslashChar, ih2]
      rw [charOfNat_eq _ c (by omega)]
    · have h1b : ¬c = Char.ofNat 34 := h1
      have h2b : ¬c = Char.ofNat 92 := h2
      simp only [List.cons_append, List.nil_append]
      rw [parseStrBody.eq_def]
      simp [h1, h2, h1b, h2b, Nat.not_lt.mp h8, quoteChar, backslashChar, ih2]

/-! ## Sizes and head shapes of emitted JSON (C9) -/

mutual

/-- Fuel measure of a JSON value: enough parser fuel to read it back. -/
def jsonSize : Json → Nat
  | Json.null => 1
  | Json.bool _ => 1
  | Json.num _ => 1
  | Json.str _ => 1
  | Json.arr es => 1 + sizeElems es
  | Json.obj ms => 1 + sizeMembers ms

/-- Fuel measure of an array tail. -/
def sizeElems : List Json → Nat
  | [] => 0
  | v :: vs => 1 + jsonSize v + sizeElems vs

/-- Fuel measure of an object tail. -/
def sizeMembers : List (String × Json) → Nat
  | [] => 0
  | (_, v) :: ms => 1 + jsonSize v + sizeMembers ms

end

/-- Every JSON value has positive size. -/
theorem jsonSize_pos (v : Json) : 1 ≤ jsonSize v := by
  cases v <;> simp [jsonSize]

mutual

/-- The size of a value is bounded by its rendering's length. -/
theorem jsonSize_le_emitLen : ∀ v : Json, jsonSize v ≤ (emit v).length
  | Json.null => by simp [jsonSize, emit]
  | Json.bool b => by cases b <;> simp [jsonSize, emit]
  | Json.num n => by
    simp only [jsonSize, emit, emitInt]
    split_ifs
    · simp
    · have h := natToDigits_ne_nil n.toNat
      have hp : 0 < (natToDigits n.toNat).length := List.length_pos.mpr h
      omega
  | Json.str s => by simp [jsonSize, emit, escString]
  | Json.arr es => by
    cases es with
    | nil => simp [jsonSize, emit, sizeElems]
    | cons v vs =>
      have h := sizeElems_le_emitLen (v :: vs) (by simp)
      simp only [jsonSize, emit, List.length_cons, List.length_append]
      simp at h ⊢
      omega
  | Json.obj ms => by
    cases ms with
    | nil => simp [jsonSize, emit, sizeMembers]
    | cons m ms' =>
      have h := sizeMembers_le_emitLen (m :: ms') (by simp)
      simp only [jsonSize, emit, List.length_cons, List.length_append]
      simp at h ⊢
      omega

/-- The size of a nonempty array tail is bounded by its rendering plus one. -/
theorem sizeElems_le_emitLen : ∀ es : List Json, es ≠ [] →
    sizeElems es ≤ (emitElems es).length + 1
  | [], h => absurd rfl h
  | [v], _ => by
    have h := jsonSize_le_emitLen v
    simp [sizeElems, emitElems]
    omega
  | v :: v2 :: vs, _ => by
    have h1 := jsonSize_le_emitLen v
    have h2 := sizeElems_le_emitLen (v2 :: vs) (by simp)
    simp only [sizeElems, emitElems, List.length_append, List.length_cons] at h2 ⊢
    omega

/-- The size of a nonempty object tail is bounded by its rendering plus one. -/
theorem sizeMembers_le_emitLen : ∀ ms : List (String × Json), ms ≠ [] →
    sizeMembers ms ≤ (emitMembers ms).length + 1
  | [], h => absurd rfl h
  | [(k, v)], _ => by
    have h := jsonSize_le_emitLen v
    simp [sizeMembers, emitMembers]
    omega
  | (k, v) :: m2 :: ms', _ => by
    have h1 := jsonSize_le_emitLen v
    have h2 := sizeMembers_le_emitLen (m2 :: ms') (by simp)
    simp only [sizeMembers, emitMembers, List.length_append, List.length_cons] at h2 ⊢
    omega

end

/-- Digit characters are distinct from all parser dispatch characters. -/
theorem isDigit_ne (c : Char) (h : c.isDigit = true) :
    c ≠ 'n' ∧ c ≠ 't' ∧ c ≠ 'f' ∧ c ≠ quoteChar ∧ c ≠ '-' ∧ c ≠ '[' ∧ c ≠ lbrace ∧
    c ≠ ']' ∧ c ≠ ' ' ∧ c ≠ '\t' ∧ c ≠ '\n' ∧ c ≠ '\r' := by
  refine ⟨?_, ?_, ?_, ?_, ?_, ?_, ?_, ?_, ?_, ?_, ?_, ?_⟩ <;>
    (intro heq; subst heq; exact absurd h (by decide))

/-- `skipWs` passes a non-whitespace head through. -/
theorem skipWs_cons_of (c : Char) (l : List Char)
    (h1 : c ≠ ' ') (h2 : c ≠ '\t') (h3 : c ≠ '\n') (h4 : c ≠ '\r') :
    skipWs (c :: l) = c :: l := by
  simp [skipWs, h1, h2, h3, h4]

/-- The first character of every rendered JSON value is not whitespace and
not a closing bracket. -/
theorem emit_head (v : Json) : ∃ c t, emit v = c :: t ∧
    c ≠ ' ' ∧ c ≠ '\t' ∧ c ≠ '\n' ∧ c ≠ '\r' ∧ c ≠ ']' := by
  cases v with
  | null =>
    exact ⟨'n', ['u', 'l', 'l'], by simp [emit], by decide, by decide, by decide,
      by decide, by decide⟩
  | bool b =>
    cases b
    · exact ⟨'f', ['a', 'l', 's', 'e'], by simp [emit], by decide, by decide, by decide,
        by decide, by decide⟩
    · exact ⟨'t', ['r', 'u', 'e'], by simp [emit], by decide, by decide, by decide,
        by decide, by decide⟩
  | num n =>
    by_cases hn : n < 0
    · exact ⟨'-', natToDigits n.natAbs, by simp [emit, emitInt, hn], by decide, by decide,
        by decide, by decide, by decide⟩
    · cases hd : natToDigits n.toNat with
      | nil => exact absurd hd (natToDigits_ne_nil _)
      | cons d ds =>
        have hdd : d.isDigit = true :=
          natToDigits_digits n.toNat d (by rw [hd]; exact List.mem_cons_self _ _)
        obtain ⟨_, _, _, _, _, _, _, h8, h9, h10, h11, h12⟩ := isDigit_ne d hdd
        exact ⟨d, ds, by simp [emit, emitInt, hn, hd], h9, h10, h11, h12, h8⟩
  | str s =>
    exact ⟨quoteChar, escBody s.data ++ [quoteChar], by simp [emit, escString],
      by decide, by decide, by decide, by decide, by decide⟩
  | arr es =>
    exact ⟨'[', emitElems es ++ [']'], by simp [emit], by decide, by decide, by decide,
      by decide, by decide⟩
  | obj ms =>
    exact ⟨lbrace, emitMembers ms ++ [rbrace], by simp [emit], by decide, by decide,
      by decide, by decide, by decide⟩

/-! ## Rendered JSON contains no control characters (C9) -/

/-- Hexadecimal digit characters have code points at least 32. -/
theorem digitChar_ge32 (d : Nat) (h : d < 16) : 32 ≤ (Nat.digitChar d).toNat := by
  interval_cases d <;> decide

/-- Every character the escaper outputs has code point at least 32. -/
theorem escChar_ge32 (c : Char) : ∀ x ∈ escChar c, 32 ≤ x.toNat := by
  unfold escChar
  split_ifs with h1 h2 h3 h4 h5 h6 h7 h8 <;> intro x hx <;>
    simp only [List.mem_cons, List.not_mem_nil, or_false] at hx
  · rcases hx with rfl | rfl <;> decide
  · rcases hx with rfl | rfl <;> decide
  · rcases hx with rfl | rfl <;> decide
  · rcases hx with rfl | rfl <;> decide
  · rcases hx with rfl | rfl <;> decide
  · rcases hx with rfl | rfl <;> decide
  · rcases hx with rfl | rfl <;> decide
  · rcases hx with rfl | rfl | rfl | rfl | rfl | rfl <;>
      first
        | decide
        | exact digitChar_ge32 _ (by omega)
  · subst hx
    omega

/-- Every character of an escaped string body has code point at least 32. -/
theorem escBody_ge32 (l : List Char) : ∀ x ∈ escBody l, 32 ≤ x.toNat := by
  intro x hx
  unfold escBody at hx
  rw [List.mem_flatten] at hx
  obtain ⟨xs, hxs, hmem⟩ := hx
  rw [List.mem_map] at hxs
  obtain ⟨c, _, rfl⟩ := hxs
  exact escChar_ge32 c x hmem

/-- Every character of a rendered string literal has code point at least 32. -/
theorem escString_ge32 (s : String) : ∀ x ∈ escString s, 32 ≤ x.toNat := by
  intro x hx
  simp only [escString, List.mem_cons, List.mem_append, List.mem_singleton,
    List.not_mem_nil, or_false] at hx
  rcases hx with (rfl | hx) | rfl
  · decide
  · exact escBody_ge32 _ x hx
  · decide

/-- Every character of a decimal rendering has code point at least 32. -/
theorem natToDigits_ge32 (n : Nat) : ∀ x ∈ natToDigits n, 32 ≤ x.toNat := by
  intro x hx
  have := isDigit_toNat (natToDigits_digits n x hx)
  omega

mutual

/-- Every character `JSON.stringify` outputs has code point at least 32; in
particular no newline or carriage return appears inside a rendered value. -/
theorem emit_ge32 : ∀ v : Json, ∀ x ∈ emit v, 32 ≤ x.toNat
  | Json.null => by
    intro x hx
    simp only [emit, List.mem_cons, List.not_mem_nil, or_false] at hx
    rcases hx with rfl | rfl | rfl | rfl <;> decide
  | Json.bool b => by
    intro x hx
    cases b <;> simp only [emit, List.mem_cons, List.not_mem_nil, or_false] at hx
    · rcases hx with rfl | rfl | rfl | rfl | rfl <;> decide
    · rcases hx with rfl | rfl | rfl | rfl <;> decide
  | Json.num n => by
    intro x hx
    simp only [emit, emitInt] at hx
    split_ifs at hx with hn
    · rcases List.mem_cons.mp hx with rfl | hx
      · decide
      · exact natToDigits_ge32 _ x hx
    · exact natToDigits_ge32 _ x hx
  | Json.str s => by
    intro x hx
    simp only [emit] at hx
    exact escString_ge32 s x hx
  | Json.arr es => by
    intro x hx
    simp only [emit] at hx
    rcases List.mem_cons.mp hx with rfl | hx
    · decide
    · rcases List.mem_append.mp hx with hx | hx
      · exact emitElems_ge32 es x hx
      · rw [List.mem_singleton] at hx
        subst hx
        decide
  | Json.obj ms => by
    intro x hx
    simp only [emit] at hx
    rcases List.mem_cons.mp hx with rfl | hx
    · decide
    · rcases List.mem_append.mp hx with hx | hx
      · exact emitMembers_ge32 ms x hx
      · rw [List.mem_singleton] at hx
        subst hx
        decide

/-- Array-tail version of `emit_ge32`. -/
theorem emitElems_ge32 : ∀ es : List Json, ∀ x ∈ emitElems es, 32 ≤ x.toNat
  | [] => by simp [emitElems]
  | [v] => by
    intro x hx
    simp only [emitElems] at hx
    exact emit_ge32 v x hx
  | v :: v2 :: vs => by
    intro x hx
    simp only [emitElems] at hx
    rcases List.mem_append.mp hx with hx | hx
    · exact emit_ge32 v x hx
    · rcases List.mem_cons.mp hx with rfl | hx
      · decide
      · exact emitElems_ge32 (v2 :: vs) x hx

/-- Object-tail version of `emit_ge32`. -/
theorem emitMembers_ge32 : ∀ ms : List (String × Json), ∀ x ∈ emitMembers ms, 32 ≤ x.toNat
  | [] => by simp [emitMembers]
  | [(k, v)] => by
    intro x hx
    simp only [emitMembers] at hx
    rcases List.mem_append.mp hx with hx | hx
    · exact escString_ge32 k x hx
    · rcases List.mem_cons.mp hx with rfl | hx
      · decide
      · exact emit_ge32 v x hx
  | (k, v) :: m2 :: ms' => by
    intro x hx
    simp only [emitMembers] at hx
    rcases List.mem_append.mp hx with hx | hx
    · rcases List.mem_append.mp hx with hx | hx
      · exact escString_ge32 k x hx
      · rcases List.mem_cons.mp hx with rfl | hx
        · decide
        · exact emit_ge32 v x hx
    · rcases List.mem_cons.mp hx with rfl | hx
      · decide
      · exact emitMembers_ge32 (m2 :: ms') x hx

end

/-- A character that is neither separator character is accumulated by the
line splitter. -/
theorem splitLinesCore_cons_other (c : Char) (rest acc : List Char)
    (h1 : c ≠ '\n') (h2 : c ≠ '\r') :
    splitLinesCore (c :: rest) acc = splitLinesCore rest (c :: acc) := by
  cases rest with
  | nil => simp [splitLinesCore, h1, h2]
  | cons c2 rest2 => simp [splitLinesCore, h1, h2]

/-- Splitting a chunk of printable characters terminated by one newline
yields that chunk as a single line plus one trailing empty line. -/
theorem splitLinesCore_append_newline : ∀ (cs acc : List Char),
    (∀ c ∈ cs, 32 ≤ c.toNat) →
    splitLinesCore (cs ++ ['\n']) acc = [String.mk (acc.reverse ++ cs), ""] := by
  intro cs
  induction cs with
  | nil =>
    intro acc _
    simp [splitLinesCore]
  | cons c cs ih =>
    intro acc h
    have hc := h c (List.mem_cons_self _ _)
    have hn : c ≠ '\n' := by intro heq; subst heq; exact absurd hc (by decide)
    have hr : c ≠ '\r' := by intro heq; subst heq; exact absurd hc (by decide)
    rw [List.cons_append, splitLinesCore_cons_other c _ acc hn hr]
    rw [ih (c :: acc) (fun d hd => h d (List.mem_cons_of_mem _ hd))]
    simp

/-- The stdout pipeline applied to an encoded command payload sees exactly
the one JSON line. -/
theorem stdoutLines_encode (v : Json) :
    stdoutLines (jsonStringify v ++ "\n") = [jsonStringify v] := by
  unfold stdoutLines splitLines
  rw [String.data_append]
  rw [show (jsonStringify v).data = emit v from rfl,
      show ("\n" : String).data = ['\n'] from rfl]
  rw [splitLinesCore_append_newline (emit v) [] (emit_ge32 v)]
  obtain ⟨c, t, he, _⟩ := emit_head v
  have hne : String.mk (emit v) ≠ "" := by
    rw [he]
    intro hcon
    exact List.noConfusion (congrArg String.data hcon)
  simp [jsonStringify, hne]

/-- An empty remainder has no digit head. -/
theorem noDigitHead_nil : noDigitHead [] := by
  intro c hc
  simp at hc

/-- A remainder led by a non-digit has no digit head. -/
theorem noDigitHead_cons (c : Char) (l : List Char) (h : c.isDigit = false) :
    noDigitHead (c :: l) := by
  intro d hd
  simp only [List.head?_cons, Option.some.injEq] at hd
  rw [← hd]
  exact h

/-- The head decomposition of a nonempty rendered element list. -/
theorem emitElems_cons_eq (v : Json) (vs : List Json) :
    ∃ t, emitElems (v :: vs) = emit v ++ t := by
  cases vs with
  | nil => exact ⟨[], by simp [emitElems]⟩
  | cons v2 vs' => exact ⟨',' :: emitElems (v2 :: vs'), by simp [emitElems]⟩

/-- The head decomposition of a nonempty rendered member list: it starts with
the key's opening quote. -/
theorem emitMembers_cons_eq (k : String) (v : Json) (ms : List (String × Json)) :
    ∃ t, emitMembers ((k, v) :: ms) = quoteChar :: t := by
  cases ms with
  | nil =>
    exact ⟨escBody k.data ++ [quoteChar] ++ (':' :: emit v),
      by simp [emitMembers, escString]⟩
  | cons m2 ms' =>
    exact ⟨escBody k.data ++ [quoteChar]
        ++ (':' :: emit v ++ ',' :: emitMembers (m2 :: ms')),
      by simp [emitMembers, escString]⟩

/-! ## Decided character facts for evaluating the parser dispatch chain -/

/-- The quote is not whitespace. -/
@[simp] theorem quoteChar_ne_space : quoteChar ≠ ' ' := by decide

/-- The quote is not a tab. -/
@[simp] theorem quoteChar_ne_tab : quoteChar ≠ '\t' := by decide

/-- The quote is not a newline. -/
@[simp] theorem quoteChar_ne_nl : quoteChar ≠ '\n' := by decide

/-- The quote is not a carriage return. -/
@[simp] theorem quoteChar_ne_cr : quoteChar ≠ '\r' := by decide

/-- The quote is not the letter `n`. -/
@[simp] theorem quoteChar_ne_n : quoteChar ≠ 'n' := by decide

/-- The quote is not the letter `t`. -/
@[simp] theorem quoteChar_ne_t : quoteChar ≠ 't' := by decide

/-- The quote is not the letter `f`. -/
@[simp] theorem quoteChar_ne_f : quoteChar ≠ 'f' := by decide

/-- The quote is not a minus sign. -/
@[simp] theorem quoteChar_ne_minus : quoteChar ≠ '-' := by decide

/-- The quote is not an opening bracket. -/
@[simp] theorem quoteChar_ne_lbracket : quoteChar ≠ '[' := by decide

/-- The quote is not the closing brace. -/
@[simp] theorem quoteChar_ne_rbrace : quoteChar ≠ rbrace := by decide

/-- The quote is not a digit. -/
@[simp] theorem quoteChar_not_digit : quoteChar.isDigit = false := by decide

/-- The minus sign is not the quote. -/
@[simp] theorem minus_ne_quoteChar : ('-' : Char) ≠ quoteChar := by decide

/-- The opening bracket is not the quote. -/
@[simp] theorem lbracket_ne_quoteChar : ('[' : Char) ≠ quoteChar := by decide

/-- The opening bracket is not a digit. -/
@[simp] theorem lbracket_not_digit : ('[' : Char).isDigit = false := by decide

/-- The opening brace is not whitespace. -/
@[simp] theorem lbrace_ne_space : lbrace ≠ ' ' := by decide

/-- The opening brace is not a tab. -/
@[simp] theorem lbrace_ne_tab : lbrace ≠ '\t' := by decide

/-- The opening brace is not a newline. -/
@[simp] theorem lbrace_ne_nl : lbrace ≠ '\n' := by decide

/-- The opening brace is not a carriage return. -/
@[simp] theorem lbrace_ne_cr : lbrace ≠ '\r' := by decide

/-- The opening brace is not the letter `n`. -/
@[simp] theorem lbrace_ne_n : lbrace ≠ 'n' := by decide

/-- The opening brace is not the letter `t`. -/
@[simp] theorem lbrace_ne_t : lbrace ≠ 't' := by decide

/-- The opening brace is not the letter `f`. -/
@[simp] theorem lbrace_ne_f : lbrace ≠ 'f' := by decide

/-- The opening brace is not the quote. -/
@[simp] theorem lbrace_ne_quoteChar : lbrace ≠ quoteChar := by decide

/-- The opening brace is not a minus sign. -/
@[simp] theorem lbrace_ne_minus : lbrace ≠ '-' := by decide

/-- The opening brace is not an opening bracket. -/
@[simp] theorem lbrace_ne_lbracket : lbrace ≠ '[' := by decide

/-- The opening brace is not a digit. -/
@[simp] theorem lbrace_not_digit : lbrace.isDigit = false := by decide

/-- The closing brace is not whitespace. -/
@[simp] theorem rbrace_ne_space : rbrace ≠ ' ' := by decide

/-- The closing brace is not a tab. -/
@[simp] theorem rbrace_ne_tab : rbrace ≠ '\t' := by decide

/-- The closing brace is not a newline. -/
@[simp] theorem rbrace_ne_nl : rbrace ≠ '\n' := by decide

/-- The closing brace is not a carriage return. -/
@[simp] theorem rbrace_ne_cr : rbrace ≠ '\r' := by decide

/-- The closing brace is not a comma. -/
@[simp] theorem rbrace_ne_comma : rbrace ≠ ',' := by decide

/-- The closing brace is not a digit. -/
@[simp] theorem rbrace_not_digit : rbrace.isDigit = false := by decide

/-- Packing the character data of a string gives the string back. -/
@[simp] theorem stringMk_data (s : String) : String.mk s.data = s := rfl

/-- The parser inverts the printer: with enough fuel, parsing a rendered
value (or a rendered nonempty element/member tail) consumes exactly the
rendering and returns the value. -/
theorem parse_emit_all : ∀ fuel : Nat,
    (∀ v rest, jsonSize v ≤ fuel → noDigitHead rest →
      parseVal fuel (emit v ++ rest) = some (v, rest)) ∧
    (∀ es rest, es ≠ [] → sizeElems es ≤ fuel →
      parseElems fuel (emitElems es ++ ']' :: rest) = some (es, rest)) ∧
    (∀ ms rest, ms ≠ [] → sizeMembers ms ≤ fuel →
      parseMembers fuel (emitMembers ms ++ rbrace :: rest) = some (ms, rest)) := by
  intro fuel
  induction fuel with
  | zero =>
    refine ⟨?_, ?_, ?_⟩
    · intro v rest hsz _
      have := jsonSize_pos v
      omega
    · intro es rest hne hsz
      cases es with
      | nil => exact absurd rfl hne
      | cons v vs =>
        have := jsonSize_pos v
        simp [sizeElems] at hsz
    · intro ms rest hne hsz
      cases ms with
      | nil => exact absurd rfl hne
      | cons m ms' =>
        obtain ⟨k, v⟩ := m
        have := jsonSize_pos v
        simp [sizeMembers] at hsz
  | succ fuel ih =>
    obtain ⟨ihP, ihQ, ihR⟩ := ih
    refine ⟨?_, ?_, ?_⟩
    · intro v rest hsz hrest
      cases v with
      | null =>
        rw [show emit Json.null = ['n', 'u', 'l', 'l'] from by simp [emit]]
        simp [parseVal, skipWs]
      | bool b =>
        cases b
        · rw [show emit (Json.bool false) = ['f', 'a', 'l', 's', 'e'] from by simp [emit]]
          simp [parseVal, skipWs]
        · rw [show emit (Json.bool true) = ['t', 'r', 'u', 'e'] from by simp [emit]]
          simp [parseVal, skipWs]
      | num n =>
        rw [show emit (Json.num n) = emitInt n from by simp [emit]]
        unfold emitInt
        split_ifs with hn
        · have hnd := parseNumTail_natToDigits n.natAbs rest hrest
          have hint : -|n| = n := by rw [abs_of_neg hn]; ring
          rw [List.cons_append]
          simp [parseVal, skipWs, hnd, hint]
        · have hnd := parseNumTail_natToDigits n.toNat rest hrest
          cases hd : natToDigits n.toNat with
          | nil => exact absurd hd (natToDigits_ne_nil _)
          | cons d ds =>
            have hdd : d.isDigit = true :=
              natToDigits_digits n.toNat d (by rw [hd]; exact List.mem_cons_self _ _)
            obtain ⟨f1, f2, f3, f4, f5, f6, f7, f8, f9, f10, f11, f12⟩ := isDigit_ne d hdd
            rw [hd, List.cons_append] at hnd
            have hint : ((n.toNat : Nat) : Int) = n := by omega
            simp [parseVal, skipWs, hdd, hnd, hint, f1, f2, f3, f4, f5, f6, f7, f9, f10,
              f11, f12]
      | str s =>
        rw [show emit (Json.str s) = quoteChar :: (escBody s.data ++ [quoteChar]) from by
          simp [emit, escString]]
        rw [List.cons_append, List.append_assoc, List.singleton_append]
        have hsb := parseStrBody_escBody s.data rest
        simp [parseVal, skipWs, hsb]
      | arr es =>
        cases es with
        | nil =>
          rw [show emit (Json.arr []) = ['[', ']'] from by simp [emit, emitElems]]
          simp [parseVal, skipWs]
        | cons v vs =>
          rw [show emit (Json.arr (v :: vs)) = '[' :: (emitElems (v :: vs) ++ [']']) from by
            simp [emit]]
          rw [List.cons_append, List.append_assoc, List.singleton_append]
          obtain ⟨c0, t0, he, hw1, hw2, hw3, hw4, hbr⟩ := emit_head v
          obtain ⟨tl, htl⟩ := emitElems_cons_eq v vs
          have hrw : emitElems (v :: vs) ++ ']' :: rest
              = c0 :: (t0 ++ (tl ++ ']' :: rest)) := by
            rw [htl, he]
            simp [List.append_assoc]
          have hq : parseElems fuel (emitElems (v :: vs) ++ ']' :: rest)
              = some (v :: vs, rest) := by
            apply ihQ
            · simp
            · simp [jsonSize] at hsz
              omega
          rw [hrw] at hq
          rw [hrw]
          simp [parseVal, skipWs, hw1, hw2, hw3, hw4, hbr, hq]
      | obj ms =>
        cases ms with
        | nil =>
          rw [show emit (Json.obj []) = [lbrace, rbrace] from by simp [emit, emitMembers]]
          simp [parseVal, skipWs, lbrace, rbrace]
        | cons m ms' =>
          obtain ⟨k, v⟩ := m
          rw [show emit (Json.obj ((k, v) :: ms'))
              = lbrace :: (emitMembers ((k, v) :: ms') ++ [rbrace]) from by simp [emit]]
          rw [List.cons_append, List.append_assoc, List.singleton_append]
          obtain ⟨tl, htl⟩ := emitMembers_cons_eq k v ms'
          have hrw : emitMembers ((k, v) :: ms') ++ rbrace :: rest
              = quoteChar :: (tl ++ rbrace :: rest) := by
            rw [htl]
            simp
          have hr : parseMembers fuel (emitMembers ((k, v) :: ms') ++ rbrace :: rest)
              = some ((k, v) :: ms', rest) := by
            apply ihR
            · simp
            · simp [jsonSize] at hsz
              omega
          rw [hrw] at hr
          rw [hrw]
          simp [parseVal, skipWs, lbrace, rbrace, quoteChar, hr]
    · intro es rest hne hsz
      cases es with
      | nil => exact absurd rfl hne
      | cons v vs =>
        have hszv : jsonSize v ≤ fuel := by
          simp [sizeElems] at hsz
          omega
        cases vs with
        | nil =>
          rw [show emitElems [v] = emit v from by simp [emitElems]]
          have hp := ihP v (']' :: rest) hszv (noDigitHead_cons ']' rest (by decide))
          simp only [parseElems]
          rw [hp]
          simp [skipWs]
        | cons v2 vs' =>
          rw [show emitElems (v :: v2 :: vs') = emit v ++ ',' :: emitElems (v2 :: vs')
            from by simp [emitElems]]
          rw [List.append_assoc]
          have hp := ihP v (',' :: (emitElems (v2 :: vs') ++ ']' :: rest)) hszv
            (noDigitHead_cons ',' _ (by decide))
          have hq2 : parseElems fuel (emitElems (v2 :: vs') ++ ']' :: rest)
              = some (v2 :: vs', rest) := by
            apply ihQ
            · simp
            · simp [sizeElems] at hsz ⊢
              omega
          rw [List.cons_append]
          simp only [parseElems]
          rw [hp]
          simp [skipWs, hq2]
    · intro ms rest hne hsz
      cases ms with
      | nil => exact absurd rfl hne
      | cons m ms' =>
        obtain ⟨k, v⟩ := m
        have hszv : jsonSize v ≤ fuel := by
          simp [sizeMembers] at hsz
          omega
        cases ms' with
        | nil =>
          rw [show emitMembers [(k, v)] = escString k ++ ':' :: emit v from by
            simp [emitMembers]]
          rw [show (escString k ++ ':' :: emit v) ++ rbrace :: rest
              = quoteChar :: (escBody k.data
                  ++ quoteChar :: (':' :: (emit v ++ rbrace :: rest)))
            from by simp [escString, List.append_assoc]]
          have hsb := parseStrBody_escBody k.data (':' :: (emit v ++ rbrace :: rest))
          have hp := ihP v (rbrace :: rest) hszv (noDigitHead_cons rbrace rest (by decide))
          simp only [parseMembers]
          simp [skipWs, hsb, hp, rbrace]
        | cons m2 ms'' =>
          rw [show emitMembers ((k, v) :: m2 :: ms'')
              = escString k ++ ':' :: emit v ++ ',' :: emitMembers (m2 :: ms'') from by
            simp [emitMembers]]
          rw [show (escString k ++ ':' :: emit v ++ ',' :: emitMembers (m2 :: ms''))
                ++ rbrace :: rest
              = quoteChar :: (escBody k.data ++ quoteChar
                  :: (':' :: (emit v ++ ',' :: (emitMembers (m2 :: ms'')
                      ++ rbrace :: rest))))
            from by simp [escString, List.append_assoc]]
          have hsb := parseStrBody_escBody k.data
            (':' :: (emit v ++ ',' :: (emitMembers (m2 :: ms'') ++ rbrace :: rest)))
          have hp := ihP v (',' :: (emitMembers (m2 :: ms'') ++ rbrace :: rest)) hszv
            (noDigitHead_cons ',' _ (by decide))
          have hr2 : parseMembers fuel (emitMembers (m2 :: ms'') ++ rbrace :: rest)
              = some (m2 :: ms'', rest) := by
            apply ihR
            · simp
            · simp [sizeMembers] at hsz ⊢
              omega
          simp only [parseMembers]
          simp [skipWs, hsb, hp, hr2, rbrace]

/-- `JSON.parse` inverts `JSON.stringify` on every embedded value: the whole
stringified line parses back to the original value with nothing left over. -/
theorem parseJsonTop_stringify (v : Json) :
    parseJsonTop (jsonStringify v) = some v := by
  have hlen : jsonSize v ≤ (jsonStringify v).length + 1 := by
    have h1 := jsonSize_le_emitLen v
    have h2 : (jsonStringify v).length = (emit v).length := rfl
    omega
  have h := (parse_emit_all ((jsonStringify v).length + 1)).1 v [] hlen noDigitHead_nil
  rw [List.append_nil] at h
  unfold parseJsonTop
  rw [show (jsonStringify v).data = emit v from rfl, h]
  simp [skipWs]

/-- C9: for every valid command name and every argument value, the wire
record built by `sendCmd` (`JSON.stringify(\x7b cmd, args \x7d)` plus a
newline) decodes back through the stdout pipeline (`split`, `filter`,
`JSON.parse`) to exactly the same record, whose `cmd` and `args` fields are
the original command name and argument value. -/
theorem c9_roundtrip (cmd : String) (args : Json)
    (_hcmd : cmd = "load" ∨ cmd = "start" ∨ cmd = "stop" ∨ cmd = "status") :
    parseJsonTop (jsonStringify (cmdRecord cmd args)) = some (cmdRecord cmd args) ∧
    (∀ st : St,
      (onStdoutData st (encodeCmdPayload cmd args)).2 = [cmdRecord cmd args]) ∧
    propAccess (cmdRecord cmd args) "cmd" = some (some (Json.str cmd)) ∧
    propAccess (cmdRecord cmd args) "args" = some (some args) := by
  have hp := parseJsonTop_stringify (cmdRecord cmd args)
  refine ⟨hp, ?_, ?_, ?_⟩
  · intro st
    unfold onStdoutData encodeCmdPayload
    rw [stdoutLines_encode]
    simp only [onStdoutLines, onStdoutLine, hp]
    simp [propAccess, cmdRecord, jsLookupLast, isEvtStr]
  · simp [propAccess, cmdRecord, jsLookupLast]
  · simp [propAccess, cmdRecord, jsLookupLast]

/-- C9 witness: the round trip at the concrete command `start` with
arguments `\x7b language: en \x7d`. -/
theorem c9_roundtrip_witness :
    parseJsonTop (jsonStringify (cmdRecord "start" (Json.obj [("language", Json.str "en")])))
        = some (cmdRecord "start" (Json.obj [("language", Json.str "en")])) ∧
    propAccess (cmdRecord "start" (Json.obj [("language", Json.str "en")])) "cmd"
        = some (some (Json.str "start")) ∧
    propAccess (cmdRecord "start" (Json.obj [("language", Json.str "en")])) "args"
        = some (some (Json.obj [("language", Json.str "en")])) := by
  obtain ⟨h1, _, h3, h4⟩ :=
    c9_roundtrip "start" (Json.obj [("language", Json.str "en")]) (Or.inr (Or.inl rfl))
  exact ⟨h1, h3, h4⟩
